import Mathlib

/-!
Verification of the multipass daemon's instance lifecycle manager
(`src/daemon/daemon.cpp`) against its natural-language specification.

The C++ code is shallowly embedded: pure helper functions become Lean
functions, the daemon's mutable registries become explicit state records,
and exceptions become `Except`/`Option` results.  External collaborators
(hypervisor factory, image vault, SSH sessions, random MAC generation,
path normalization) are passed in as function parameters so that the
daemon's own control flow is modelled exactly.
-/

namespace Multipass

/-- Instance state enum, `VirtualMachine::State`.  The enumerators and
their order come from the specification (§3): off, stopped, starting,
restarting, running, delayed-shutdown, suspending, suspended, unknown. -/
inductive VMState where
  | off
  | stopped
  | starting
  | restarting
  | running
  | delayed_shutdown
  | suspending
  | suspended
  | unknown
deriving DecidableEq, Repr

/-- Modelled from the spec: integer code of a `VirtualMachine::State`
(§4.1 "state (integer code matching §3)"); the header with the enum is
not part of the sources, so the codes follow the §3 order, 0 to 8. -/
def stateToInt : VMState → Int
  | .off => 0
  | .stopped => 1
  | .starting => 2
  | .restarting => 3
  | .running => 4
  | .delayed_shutdown => 5
  | .suspending => 6
  | .suspended => 7
  | .unknown => 8

/-- Modelled from the spec: the `static_cast<mp::VirtualMachine::State>`
performed by `load_db` on the persisted integer code; codes outside the
enum collapse to `unknown`. -/
def stateOfInt (i : Int) : VMState :=
  if i = 0 then .off
  else if i = 1 then .stopped
  else if i = 2 then .starting
  else if i = 3 then .restarting
  else if i = 4 then .running
  else if i = 5 then .delayed_shutdown
  else if i = 6 then .suspending
  else if i = 7 then .suspended
  else .unknown

/-- Modelled from the spec (§3): `is_running(s)` holds for
{starting, restarting, running, delayed-shutdown}; `mp::utils::is_running`
itself is not among the sources. -/
def is_running : VMState → Bool
  | .starting => true
  | .restarting => true
  | .running => true
  | .delayed_shutdown => true
  | _ => false

/-- `mp::NetworkInterface`: host network id, MAC address and auto/manual
mode flag (data model §3, and the `extra_interfaces` persisted shape). -/
structure NetworkInterface where
  id : String
  mac_address : String
  auto_mode : Bool
deriving DecidableEq, Repr

/-- Single-quote character, used when rebuilding the daemon's literal
error messages. -/
def sq : String := String.singleton (Char.ofNat 39)

/-- Hexadecimal digit test for MAC validation. -/
def isHexDigit (c : Char) : Bool :=
  c.isDigit || (97 ≤ c.toNat && c.toNat ≤ 102) || (65 ≤ c.toNat && c.toNat ≤ 70)

/-- Splitting a character list at colons (the code's colon-separated MAC
grammar, written over `String.data` so that it evaluates structurally). -/
def splitCols : List Char → List (List Char)
  | [] => [[]]
  | c :: rest =>
    match splitCols rest with
    | [] => [[]]
    | g :: gs => if c = ':' then [] :: g :: gs else (c :: g) :: gs

/-- Modelled from the spec: `mp::utils::valid_mac_address` (not among the
sources) accepts IEEE 48-bit colon-separated MAC addresses, i.e. six
groups of two hexadecimal digits separated by colons (§4.2). -/
def valid_mac_address (s : String) : Bool :=
  let parts := splitCols s.data
  parts.length = 6 && parts.all fun p => p.length = 2 && p.all isHexDigit

/-- Modelled from the spec: `mp::MemorySize` of a persisted decimal byte
string (§4.1 stores memory and disk as decimal byte strings); a string of
digits denotes that many bytes and anything else counts as zero bytes. -/
def mem_in_bytes (s : String) : Nat :=
  if s.data.all Char.isDigit then s.data.foldl (fun n c => n * 10 + (c.toNat - 48)) 0
  else 0

/-- Modelled from the spec: `mp::default_memory_size` ("1G"). -/
def default_memory_size : String := "1073741824"

/-- Modelled from the spec: `mp::default_disk_size` ("5G"). -/
def default_disk_size : String := "5368709120"

/-- Entry of a UID/GID mapping list: host id paired with instance id. -/
abbrev IdMapping := Int × Int

/-- One step of `unique_id_mappings`: record `p` under its host id,
overriding an earlier entry with the same host id in place. -/
def idMapUpsert (l : List IdMapping) (p : IdMapping) : List IdMapping :=
  if l.any (fun q => q.1 = p.1) then
    l.map fun q => if q.1 = p.1 then (q.1, p.2) else q
  else
    l ++ [p]

/-- Modelled from the spec: `mp::unique_id_mappings` (not among the
sources) deduplicates a mapping list by host side, later entries with the
same host ID overriding earlier ones while preserving order (§3). -/
def unique_id_mappings (l : List IdMapping) : List IdMapping :=
  l.foldl idMapUpsert []

/-- `mp::VMMount`: host source path, GID and UID mapping lists and the
mount kind code (classic/native), as persisted by the codec. -/
structure VMMount where
  source_path : String
  gid_mappings : List IdMapping
  uid_mappings : List IdMapping
  mount_type : Int
deriving DecidableEq, Repr

/-- Opaque JSON object (the free-form `metadata` blob), embedded as an
association list of string fields. -/
abbrev JsonObject := List (String × String)

/-- `mp::VMSpecs`: the durable instance specification (data model §3),
with memory sizes in bytes and the mounts map as an association list
from target path to mount description. -/
structure VMSpecs where
  num_cores : Int
  mem_size : Nat
  disk_space : Nat
  default_mac_address : String
  extra_interfaces : List NetworkInterface
  ssh_username : String
  state : VMState
  mounts : List (String × VMMount)
  deleted : Bool
  metadata : JsonObject
deriving DecidableEq, Repr

/-! ### Name generation (`name_from`, daemon.cpp:221-245) -/

/-- The retry loop in `name_from`: the candidate `name` was drawn once
before the loop; each of the `fuel` iterations re-checks that same
candidate against `used` (`continue` on a hit) and returns it otherwise;
exhausting the loop throws ("unable to generate a unique name"),
embedded as `none`. -/
def name_from_loop (name : String) (used : List String) : Nat → Option String
  | 0 => none
  | fuel + 1 =>
    if used.contains name then name_from_loop name used fuel
    else some name

/-- `name_from` (daemon.cpp:221-245): requested name wins, then the
blueprint-derived name; otherwise one candidate is drawn from the name
generator (`gen 0`) and the 100-iteration retry loop runs on it.  The
name generator is embedded as the stream of names it would emit. -/
def name_from (requested_name blueprint_name : String) (gen : Nat → String)
    (currently_used_names : List String) : Option String :=
  if requested_name ≠ "" then some requested_name
  else if blueprint_name ≠ "" then some blueprint_name
  else name_from_loop (gen 0) currently_used_names 100

/-- The deterministic name generator of the spec's concrete scenario,
emitting a, b, c, d in sequence. -/
def abcdGen : Nat → String := fun i => ["a", "b", "c", "d"].getD i "d"

/-! ### Persistence codec (`load_db`, daemon.cpp:270-367;
`vm_spec_to_json`, daemon.cpp:385-440) -/

/-- One element of a persisted record's `mounts` array:
`{source_path, target_path, uid_mappings, gid_mappings, mount_type}`. -/
structure JsonMount where
  source_path : String
  target_path : String
  uid_mappings : List IdMapping
  gid_mappings : List IdMapping
  mount_type : Int
deriving DecidableEq, Repr

/-- One persisted instance record, with the accessor results of the Qt
JSON API: a missing field reads as its default (0, "", false, empty
object or empty array). -/
structure JsonRecord where
  num_cores : Int
  mem_size : String
  disk_space : String
  ssh_username : String
  state : Int
  deleted : Bool
  metadata : JsonObject
  mac_addr : String
  extra_interfaces : List NetworkInterface
  mounts : List JsonMount
deriving DecidableEq, Repr

/-- The persisted registry document: instance name to record, where
`none` stands for an empty JSON object (`record.isEmpty()`). -/
abbrev JsonDoc := List (String × Option JsonRecord)

/-- `read_extra_interfaces` (daemon.cpp:247-268): each entry's MAC is
validated; an invalid MAC throws ("Invalid MAC address ..."), failing the
whole load. -/
def read_extra_interfaces : List NetworkInterface → Except String (List NetworkInterface)
  | [] => .ok []
  | iface :: rest =>
    if valid_mac_address iface.mac_address then
      (read_extra_interfaces rest).map (iface :: ·)
    else
      .error ("Invalid MAC address " ++ iface.mac_address)

/-- `mounts[target_path] = mount` on the reconstructed mounts map: the
entry for an existing target is overwritten in place, a new target is
appended. -/
def mountUpsert (l : List (String × VMMount)) (t : String) (m : VMMount) :
    List (String × VMMount) :=
  if l.any (fun q => q.1 = t) then
    l.map fun q => if q.1 = t then (t, m) else q
  else
    l ++ [(t, m)]

/-- The `mounts` loop of `load_db` (daemon.cpp:325-353): each array entry
has its UID and GID mapping lists deduplicated and is stored in the map
under its target path. -/
def load_mounts (entries : List JsonMount) : List (String × VMMount) :=
  entries.foldl
    (fun acc e =>
      mountUpsert acc e.target_path
        { source_path := e.source_path
          gid_mappings := unique_id_mappings e.gid_mappings
          uid_mappings := unique_id_mappings e.uid_mappings
          mount_type := e.mount_type })
    []

/-- The ghost test of `load_db` (daemon.cpp:308-313): zero cores, not
deleted, empty username, empty metadata, and memory and disk strings
denoting zero bytes. -/
def isGhostRecord (r : JsonRecord) : Bool :=
  r.num_cores = 0 && !r.deleted && r.ssh_username = "" && r.metadata.isEmpty
    && mem_in_bytes r.mem_size = 0 && mem_in_bytes r.disk_space = 0

/-- Loading one (non-empty) record (`load_db` loop body,
daemon.cpp:300-365): `ok none` is a ghost dropped with a warning,
`error` is the loud whole-load failure on an invalid MAC. -/
def load_record (r : JsonRecord) : Except String (Option VMSpecs) :=
  if isGhostRecord r then .ok none
  else
    let ssh_username := if r.ssh_username = "" then "ubuntu" else r.ssh_username
    if !valid_mac_address r.mac_addr then
      .error ("Invalid MAC address " ++ r.mac_addr)
    else
      (read_extra_interfaces r.extra_interfaces).map fun extras =>
        some
          { num_cores := r.num_cores
            mem_size := mem_in_bytes (if r.mem_size = "" then default_memory_size else r.mem_size)
            disk_space := mem_in_bytes (if r.disk_space = "" then default_disk_size else r.disk_space)
            default_mac_address := r.mac_addr
            extra_interfaces := extras
            ssh_username := ssh_username
            state := stateOfInt r.state
            mounts := load_mounts r.mounts
            deleted := r.deleted
            metadata := r.metadata }

/-- `reconstructed_records[key] = ...`: unordered-map insertion,
overwriting an existing key in place and appending a fresh one. -/
def specUpsert (l : List (String × VMSpecs)) (k : String) (v : VMSpecs) :
    List (String × VMSpecs) :=
  if l.any (fun q => q.1 = k) then
    l.map fun q => if q.1 = k then (k, v) else q
  else
    l ++ [(k, v)]

/-- The record loop of `load_db` (daemon.cpp:293-365): an empty record
makes the whole load return the empty registry (`return {}`); a ghost is
skipped; an invalid MAC fails the load; anything else is inserted. -/
def load_db_go (acc : List (String × VMSpecs)) :
    JsonDoc → Except String (List (String × VMSpecs))
  | [] => .ok acc
  | (_, none) :: _ => .ok []
  | (key, some r) :: rest =>
    match load_record r with
    | .error e => .error e
    | .ok none => load_db_go acc rest
    | .ok (some spec) => load_db_go (specUpsert acc key spec) rest

/-- `load_db` (daemon.cpp:270-367) on an already-parsed document.  (An
absent or unparseable file returns the empty registry before this loop;
so does an empty document, which here coincides with looping over no
records.) -/
def load_db (doc : JsonDoc) : Except String (List (String × VMSpecs)) :=
  load_db_go [] doc

/-- `vm_spec_to_json`'s `mounts` array (daemon.cpp:401-438), one entry
per mounts-map element in map order. -/
def persist_mounts (mounts : List (String × VMMount)) : List JsonMount :=
  mounts.map fun tm =>
    { source_path := tm.2.source_path
      target_path := tm.1
      uid_mappings := tm.2.uid_mappings
      gid_mappings := tm.2.gid_mappings
      mount_type := tm.2.mount_type }

/-- `vm_spec_to_json` (daemon.cpp:385-440): memory and disk are written
as decimal byte strings, the state as its integer code. -/
def vm_spec_to_json (specs : VMSpecs) : JsonRecord :=
  { num_cores := specs.num_cores
    mem_size := toString specs.mem_size
    disk_space := toString specs.disk_space
    ssh_username := specs.ssh_username
    state := stateToInt specs.state
    deleted := specs.deleted
    metadata := specs.metadata
    mac_addr := specs.default_mac_address
    extra_interfaces := specs.extra_interfaces
    mounts := persist_mounts specs.mounts }

/-- `persist_instances` (daemon.cpp:2617-2628): the whole in-memory map
serialized record by record. -/
def persist_instances (specs : List (String × VMSpecs)) : JsonDoc :=
  specs.map fun ks => (ks.1, some (vm_spec_to_json ks.2))

/-! ### MAC allocator (daemon.cpp:1102-1137) and the create path's MAC
phase (daemon.cpp:2904-2935) -/

/-- `mac_set_from` (daemon.cpp:1102-1112): the default MAC plus the MACs
of all extra interfaces, as a set. -/
def mac_set_from (spec : VMSpecs) : Finset String :=
  insert spec.default_mac_address (spec.extra_interfaces.map (·.mac_address)).toFinset

/-- `merge_if_disjoint` (daemon.cpp:1114-1122): `t` is merged into `s`
iff the two sets are disjoint; the returned flag says whether they were.
Returns (disjoint?, merged set or the untouched `s`). -/
def merge_if_disjoint (s t : Finset String) : Bool × Finset String :=
  if s.filter (· ∈ t) ≠ ∅ then (false, s)
  else (true, s ∪ t)

/-- The message of the runtime error thrown when MAC generation
exhausts its five attempts (daemon.cpp:1134-1136). -/
def macExhaustMsg (in_use : Nat) : String :=
  "Failed to generate an unique mac address after 5 attempts. " ++
    "Number of mac addresses in use: " ++ toString in_use

/-- The attempt loop of `generate_unused_mac_address`: `gen k` is the
next candidate the random generator would produce; a candidate already
in `s` is discarded and a fresh one drawn, for at most `tries` attempts.
Success returns the accepted MAC, the grown set and the next generator
index. -/
def gen_mac_loop (gen : Nat → String) (s : Finset String) :
    Nat → Nat → Except String (String × Finset String × Nat)
  | _, 0 => .error (macExhaustMsg s.card)
  | k, tries + 1 =>
    if gen k ∈ s then gen_mac_loop gen s (k + 1) tries
    else .ok (gen k, insert (gen k) s, k + 1)

/-- `generate_unused_mac_address` (daemon.cpp:1124-1137): up to five
attempts to insert a generated MAC into `s`; exhaustion throws a runtime
error, embedded as `Except.error` with the thrown message. -/
def generate_unused_mac_address (gen : Nat → String) (k : Nat) (s : Finset String) :
    Except String (String × Finset String × Nat) :=
  gen_mac_loop gen s k 5

/-- First pass of the create path (daemon.cpp:2907-2910): every
non-empty requested MAC is inserted into the tentative set; a failed
insertion throws "Repeated MAC address ...". -/
def insert_requested_macs (s : Finset String) :
    List NetworkInterface → Except String (Finset String)
  | [] => .ok s
  | iface :: rest =>
    if iface.mac_address = "" then insert_requested_macs s rest
    else if iface.mac_address ∈ s then
      .error ("Repeated MAC address " ++ iface.mac_address)
    else insert_requested_macs (insert iface.mac_address s) rest

/-- Second pass of the create path (daemon.cpp:2912-2915): interfaces
with an empty MAC get a generated one, drawn against the tentative set. -/
def generate_missing_macs (gen : Nat → String) (k : Nat) (s : Finset String) :
    List NetworkInterface → Except String (List NetworkInterface × Finset String × Nat)
  | [] => .ok ([], s, k)
  | iface :: rest =>
    if iface.mac_address = "" then
      match generate_unused_mac_address gen k s with
      | .error e => .error e
      | .ok (mac, s', k') =>
        (generate_missing_macs gen k' s' rest).map fun r =>
          ({ iface with mac_address := mac } :: r.1, r.2.1, r.2.2)
    else
      (generate_missing_macs gen k s rest).map fun r =>
        (iface :: r.1, r.2.1, r.2.2)

/-- The MAC phase of `make_vm_description` (daemon.cpp:2904-2917): the
tentative set `new_macs` starts as a copy of the allocated set; requested
MACs are checked in a first pass, missing ones generated in a second,
and the default MAC generated last.  Returns the default MAC, the final
extra interfaces and the tentative set. -/
def prepare_instance_macs (gen : Nat → String) (k : Nat) (allocated : Finset String)
    (extra_interfaces : List NetworkInterface) :
    Except String (String × List NetworkInterface × Finset String) := do
  let new_macs ← insert_requested_macs allocated extra_interfaces
  let (extras, new_macs, k) ← generate_missing_macs gen k new_macs extra_interfaces
  let (default_mac, new_macs, _) ← generate_unused_mac_address gen k new_macs
  return (default_mac, extras, new_macs)

/-! ### Daemon state and the operations that move MAC ownership
(constructor daemon.cpp:1220-1330, create commit daemon.cpp:2714-2780,
`release_resources` daemon.cpp:2630-2643, `purge` daemon.cpp:1423-1444) -/

/-- gRPC status codes used by the daemon, named as in the error-kind
taxonomy. -/
inductive StatusCode where
  | ok
  | invalidArgument
  | notFound
  | alreadyExists
  | failedPrecondition
  | aborted
  | resourceExhausted
  | internal
  | unimplemented
deriving DecidableEq, Repr

/-- The slice of the daemon's shared state that carries MAC ownership:
the registered specifications (`vm_instance_specs`) and the allocated
MAC set (`allocated_mac_addrs`). -/
structure MacState where
  vm_instance_specs : List (String × VMSpecs)
  allocated_mac_addrs : Finset String
deriving DecidableEq

/-- Union of the MAC sets of all registered specifications. -/
def macUnion (specs : List (String × VMSpecs)) : Finset String :=
  specs.foldr (fun ks acc => mac_set_from ks.2 ∪ acc) ∅

/-- The MAC bookkeeping invariant of the spec (§8): the union of MACs
over all specs equals the allocated-MAC set; MAC sets of distinct specs
are pairwise disjoint (§3 "across specifications, all MACs are pairwise
distinct"). -/
def MacInvariant (st : MacState) : Prop :=
  macUnion st.vm_instance_specs = st.allocated_mac_addrs ∧
    st.vm_instance_specs.Pairwise fun a b => Disjoint (mac_set_from a.2) (mac_set_from b.2)

/-- `release_resources` (daemon.cpp:2630-2643): if a spec is registered
under `instance`, its MACs leave the allocated set and the spec is
erased.  (The factory and vault release calls are external.) -/
def release_resources (st : MacState) (instance_ : String) : MacState :=
  match st.vm_instance_specs.find? (fun ks => ks.1 = instance_) with
  | none => st
  | some ks =>
    { vm_instance_specs := st.vm_instance_specs.eraseP (fun q => q.1 = instance_)
      allocated_mac_addrs := st.allocated_mac_addrs \ mac_set_from ks.2 }

/-- `purge` (daemon.cpp:1423-1444): release the resources of every
deleted instance in turn. -/
def purge (st : MacState) (deleted_names : List String) : MacState :=
  deleted_names.foldl release_resources st

/-- The committed create path (daemon.cpp:2904-2935 and 2706-2780): the
MAC phase runs on the tentative copy; on success the new spec (default
MAC and final extra interfaces, state off, not deleted) is registered
and the tentative set replaces the global one; on failure the state is
left unchanged and the error surfaces as `FailedPrecondition` with the
exception's message. -/
def create_vm_commit (st : MacState) (name : String) (gen : Nat → String) (k : Nat)
    (num_cores : Int) (mem_size disk_space : Nat) (ssh_username : String)
    (extra_interfaces : List NetworkInterface) : StatusCode × String × MacState :=
  match prepare_instance_macs gen k st.allocated_mac_addrs extra_interfaces with
  | .error e => (.failedPrecondition, e, st)
  | .ok (default_mac, extras, new_macs) =>
    (.ok, "",
      { vm_instance_specs :=
          st.vm_instance_specs ++
            [(name,
              { num_cores := num_cores
                mem_size := mem_size
                disk_space := disk_space
                default_mac_address := default_mac
                extra_interfaces := extras
                ssh_username := ssh_username
                state := .off
                mounts := []
                deleted := false
                metadata := [] })]
        allocated_mac_addrs := new_macs })

/-- One step of the startup reconciliation loop (daemon.cpp:1241-1321):
a spec whose vault record is gone, whose MAC set repeats an address
(within itself or against the already-admitted ones) or whose image file
is missing is invalid and dropped; otherwise it is admitted, its MACs
join the allocated set, and a deleted spec with a non-stopped state is
coerced to stopped (the state coercion of daemon.cpp:1296-1303). -/
def coerce_deleted_state (spec : VMSpecs) : VMSpecs :=
  if spec.deleted && spec.state ≠ VMState.stopped then { spec with state := .stopped }
  else spec

/-- The admit-or-drop decision of the reconciliation loop for one loaded
spec, with the two external checks passed in (`vault_ok`: the image
vault still has a record; `image_ok`: the image file exists). -/
def reconcile_step (vault_ok image_ok : String → Bool) (st : MacState)
    (entry : String × VMSpecs) : MacState :=
  let (name, spec) := entry
  if !vault_ok name then st
  else
    let new_macs := mac_set_from spec
    let merged := merge_if_disjoint new_macs st.allocated_mac_addrs
    if new_macs.card ≤ spec.extra_interfaces.length || !merged.1 then st
    else if !image_ok name then st
    else
      { vm_instance_specs := st.vm_instance_specs ++ [(name, coerce_deleted_state spec)]
        allocated_mac_addrs := merged.2 }

/-- Startup reconciliation (constructor loop, daemon.cpp:1241-1330):
starting from no admitted specs and an empty allocated set, every loaded
spec is admitted or dropped in turn. -/
def reconcile (vault_ok image_ok : String → Bool) (loaded : List (String × VMSpecs)) :
    MacState :=
  loaded.foldl (reconcile_step vault_ok image_ok) ⟨[], ∅⟩

/-! ### Selection engine (`select_instances`, daemon.cpp:671-768) -/

/-- `InstanceGroup` (daemon.cpp:671-677). -/
inductive InstanceGroup where
  | noneGroup
  | operative
  | deleted
  | all
deriving DecidableEq, Repr

/-- `InstanceSelectionReport` (daemon.cpp:698-703), carrying the names of
the selected instances (the C++ stores iterators into the tables and
name references; only the names matter here). -/
structure InstanceSelectionReport where
  operative_selection : List String
  deleted_selection : List String
  missing_instances : List String
deriving DecidableEq, Repr

/-- `find_instance` + `rank_instance` (daemon.cpp:685-731) folded over
the deduplicating loop of `select_instances` (daemon.cpp:748-764):
a name already seen is skipped; otherwise it is ranked into the
operative, deleted or missing component, the operative table checked
first. -/
def select_instances_go (operative deleted : List String) :
    List String → List String → InstanceSelectionReport → InstanceSelectionReport
  | [], _, acc => acc
  | name :: rest, seen, acc =>
    if seen.contains name then select_instances_go operative deleted rest seen acc
    else
      let acc :=
        if operative.contains name then
          { acc with operative_selection := acc.operative_selection ++ [name] }
        else if deleted.contains name then
          { acc with deleted_selection := acc.deleted_selection ++ [name] }
        else
          { acc with missing_instances := acc.missing_instances ++ [name] }
      select_instances_go operative deleted rest (name :: seen) acc

/-- `select_instances` (daemon.cpp:734-768): an empty name list defers to
the `InstanceGroup` default (`select_all` over the respective tables,
daemon.cpp:705-714); otherwise the names are deduplicated and ranked.
The tables are given by their name lists. -/
def select_instances (operative deleted : List String) (names : List String)
    (no_name_means : InstanceGroup) : InstanceSelectionReport :=
  if names.isEmpty && no_name_means ≠ InstanceGroup.noneGroup then
    { operative_selection :=
        if no_name_means = .operative || no_name_means = .all then operative else []
      deleted_selection :=
        if no_name_means = .deleted || no_name_means = .all then deleted else []
      missing_instances := [] }
  else
    select_instances_go operative deleted names [] ⟨[], [], []⟩

/-- First-occurrence-wins deduplication of a name list, relative to the
names in `seen`; the reference semantics the selection loop should have. -/
def dedupFirst (seen : List String) : List String → List String
  | [] => []
  | n :: rest =>
    if seen.contains n then dedupFirst seen rest
    else n :: dedupFirst (n :: seen) rest

/-! ### Start state machine (`Daemon::start` loop, daemon.cpp:2040-2077) -/

/-- The observable effects of the per-target loop in `Daemon::start`:
the accumulated error buffer (`start_errors`, appended without
separators), the async wait list (`starting_vms`), the targets on which
`vm.start()` was invoked, and the delayed shutdowns cancelled. -/
structure StartOutcome where
  start_errors : String
  starting_vms : List String
  started : List String
  cancelled_shutdowns : List String
deriving DecidableEq, Repr

/-- The error message recorded for a target in the `unknown` state
(daemon.cpp:2050). -/
def unknownStateError (name : String) : String :=
  "Instance " ++ sq ++ name ++ sq ++ " is already running, but in an unknown state"

/-- The error message recorded for a target in the `suspending` state
(daemon.cpp:2056). -/
def suspendingError (name : String) : String :=
  "Cannot start the instance " ++ sq ++ name ++ sq ++ " while suspending"

/-- One iteration of the start loop (daemon.cpp:2041-2077): unknown and
suspending record an error and `continue`; delayed-shutdown erases the
pending shutdown and `continue`s; running `continue`s; starting and
restarting `break` out of the switch without starting; every other state
calls `vm.start()`; targets that fall out of the switch are appended to
`starting_vms`. -/
def start_step (acc : StartOutcome) (target : String × VMState) : StartOutcome :=
  let (name, state) := target
  match state with
  | .unknown => { acc with start_errors := acc.start_errors ++ unknownStateError name }
  | .suspending => { acc with start_errors := acc.start_errors ++ suspendingError name }
  | .delayed_shutdown =>
    { acc with cancelled_shutdowns := acc.cancelled_shutdowns ++ [name] }
  | .running => acc
  | .starting => { acc with starting_vms := acc.starting_vms ++ [name] }
  | .restarting => { acc with starting_vms := acc.starting_vms ++ [name] }
  | _ =>
    { acc with
        started := acc.started ++ [name]
        starting_vms := acc.starting_vms ++ [name] }

/-- The whole per-target loop of `Daemon::start` over the operative
selection, each target given with its current state. -/
def start_batch (targets : List (String × VMState)) : StartOutcome :=
  targets.foldl start_step ⟨"", [], [], []⟩

/-- States for which the start loop records an error, with the recorded
message. -/
def startErrorFor (target : String × VMState) : Option String :=
  match target.2 with
  | .unknown => some (unknownStateError target.1)
  | .suspending => some (suspendingError target.1)
  | _ => none

/-- States the start loop adds to the async wait list. -/
def isWaitState : VMState → Bool
  | .starting => true
  | .restarting => true
  | .off => true
  | .stopped => true
  | .suspended => true
  | _ => false

/-- States for which the start loop invokes the hypervisor start. -/
def isStartState : VMState → Bool
  | .off => true
  | .stopped => true
  | .suspended => true
  | _ => false

/-! ### Reboot (`Daemon::reboot_vm`, daemon.cpp:2948-2959) -/

/-- Result of `reboot_vm`: either a rejection status or the hand-off to
the external `ssh_reboot`. -/
inductive RebootResult where
  | rejected (code : StatusCode) (msg : String)
  | sshReboot
deriving DecidableEq, Repr

/-- `Daemon::reboot_vm` (daemon.cpp:2948-2959): a pending delayed
shutdown is erased first; a target that is not `is_running` is rejected
with `INVALID_ARGUMENT`; otherwise the reboot proceeds over SSH.
Returns the result and the delayed-shutdown registry. -/
def reboot_vm (name : String) (state : VMState) (delayed_shutdown_instances : List String) :
    RebootResult × List String :=
  let delayed :=
    if state = VMState.delayed_shutdown then
      delayed_shutdown_instances.filter (· ≠ name)
    else delayed_shutdown_instances
  if !is_running state then
    (.rejected .invalidArgument ("instance \"" ++ name ++ "\" is not running"), delayed)
  else
    (.sshReboot, delayed)

/-! ### Umount (`Daemon::umount`, daemon.cpp:2278-2337) -/

/-- The state `Daemon::umount` works on: per-instance spec mounts maps
(`vm_instance_specs[name].mounts`), the per-instance mount-handler table
(`mounts[name]`, handlers identified by their target), the error buffer,
and the record of handlers that were deactivated. -/
structure UmountState where
  spec_mounts : List (String × List (String × VMMount))
  vm_mounts : List (String × List String)
  errors : List String
  deactivated : List (String × String)
deriving DecidableEq, Repr

/-- The error line for a failed `deactivate()`; the exception text
appended by the C++ is external and omitted. -/
def unmountFailError (name target : String) : String :=
  "failed to unmount \"" ++ target ++ "\" from " ++ sq ++ name ++ sq

/-- Lookup in an association list, with a default for a missing key
(the maps are populated for every operative instance). -/
def assocLookup (l : List (String × α)) (k : String) (dfl : α) : α :=
  match l.find? (fun q => q.1 = k) with
  | some q => q.2
  | none => dfl

/-- Pointwise update of one association-list entry. -/
def assocModify (l : List (String × α)) (k : String) (f : α → α) : List (String × α) :=
  l.map fun q => if q.1 = k then (q.1, f q.2) else q

/-- `do_unmount` (daemon.cpp:2301-2313) for the handler of `target` in
instance `name`: `deactivate_ok` tells whether the handler's
`deactivate()` succeeds; on success the target leaves both the spec's
mounts map and the handler table (the maps hold at most one entry per
target), on failure only an error line is recorded. -/
def do_unmount (deactivate_ok : String → String → Bool) (name target : String)
    (st : UmountState) : UmountState :=
  if deactivate_ok name target then
    { st with
        deactivated := st.deactivated ++ [(name, target)]
        spec_mounts := assocModify st.spec_mounts name (·.filter (fun q => q.1 ≠ target))
        vm_mounts := assocModify st.vm_mounts name (·.filter (· ≠ target)) }
  else
    { st with
        deactivated := st.deactivated ++ [(name, target)]
        errors := st.errors ++ [unmountFailError name target] }

/-- One request entry of `Daemon::umount` (daemon.cpp:2287-2328): a name
outside the operative table records an error; an empty cleaned target
path unmounts every handler of the instance; a specific target is
unmounted if present and records an error otherwise.  `cleanPath` stands
for `QDir::cleanPath`. -/
def umount_entry (cleanPath : String → String) (deactivate_ok : String → String → Bool)
    (operative : List String) (st : UmountState) (entry : String × String) : UmountState :=
  let name := entry.1
  let target_path := cleanPath entry.2
  if !operative.contains name then
    { st with errors := st.errors ++
        ["instance " ++ sq ++ name ++ sq ++ " does not exist"] }
  else if target_path = "" then
    (assocLookup st.vm_mounts name []).foldl
      (fun s t => do_unmount deactivate_ok name t s) st
  else if (assocLookup st.vm_mounts name []).contains target_path then
    do_unmount deactivate_ok name target_path st
  else
    { st with errors := st.errors ++
        ["path \"" ++ target_path ++ "\" is not mounted in " ++ sq ++ name ++ sq] }

/-- `Daemon::umount` (daemon.cpp:2278-2337): the request's target-path
entries processed in order. -/
def umount (cleanPath : String → String) (deactivate_ok : String → String → Bool)
    (operative : List String) (entries : List (String × String)) (st : UmountState) :
    UmountState :=
  entries.foldl (umount_entry cleanPath deactivate_ok operative) st

/-! ## Claim C1 -/

/-- Claim C1: with operative table {a, b, c} and a deterministic name
generator emitting a, b, c, d, a launch with empty requested name should
retry against the table and yield d.  The code instead draws a single
candidate (a) before the retry loop, re-checks that same candidate 100
times and throws "unable to generate a unique name" (embedded as
`none`): the claim describes the intended behavior, the code has a slip
in the retry loop. -/
theorem name_from_generation_code_bug :
    name_from "" "" abcdGen ["a", "b", "c"] = none := by
  decide

/-! ## Claim C9 -/

/-- Claim C9, counterexample: rebooting an instance that is not running
is rejected with the invalid-argument kind, not the failed-precondition
kind the claim states. -/
theorem reboot_nonrunning_counterexample :
    (reboot_vm "foo" VMState.off []).1 =
      RebootResult.rejected StatusCode.invalidArgument "instance \"foo\" is not running" ∧
      StatusCode.invalidArgument ≠ StatusCode.failedPrecondition := by
  constructor
  · rfl
  · decide

/-- Claim C9 as amended: rebooting (restarting) an instance whose
current state does not satisfy `is_running` is rejected, and the
rejection carries the invalid-argument error kind. -/
theorem reboot_nonrunning_rejected (name : String) (state : VMState)
    (delayed : List String) (h : is_running state = false) :
    (reboot_vm name state delayed).1 =
      RebootResult.rejected StatusCode.invalidArgument
        ("instance \"" ++ name ++ "\" is not running") := by
  simp [reboot_vm, h]

/-- Witness for `reboot_nonrunning_rejected` at a concrete input. -/
theorem reboot_nonrunning_rejected_witness :
    (reboot_vm "bar" VMState.suspended ["bar"]).1 =
      RebootResult.rejected StatusCode.invalidArgument
        ("instance \"" ++ "bar" ++ "\" is not running") :=
  reboot_nonrunning_rejected "bar" VMState.suspended ["bar"] (by decide)

/-! ## Claim C4 -/

/-- Claim C4: a create/launch request listing two extra interfaces with
the same non-empty MAC address fails with the failed-precondition kind
and the message "Repeated MAC address <mac>", and the daemon state —
in particular the global allocated-MAC set — is left unchanged, the MAC
phase having operated on a tentative copy only. -/
theorem create_repeated_mac_rejected (st : MacState) (name : String)
    (gen : Nat → String) (k : Nat) (cores : Int) (mem disk : Nat) (user : String)
    (id1 id2 : String) (a1 a2 : Bool) (m : String) (hm : m ≠ "") :
    create_vm_commit st name gen k cores mem disk user
        [⟨id1, m, a1⟩, ⟨id2, m, a2⟩] =
      (StatusCode.failedPrecondition, "Repeated MAC address " ++ m, st) := by
  by_cases hmem : m ∈ st.allocated_mac_addrs <;>
    simp [create_vm_commit, prepare_instance_macs, insert_requested_macs, hm, hmem,
      Bind.bind, Except.bind]

/-- Witness for `create_repeated_mac_rejected` at the spec's concrete
scenario MAC 52:54:00:aa:bb:cc. -/
theorem create_repeated_mac_rejected_witness :
    create_vm_commit ⟨[], ∅⟩ "x" (fun _ => "m") 0 1 1024 1024 "ubuntu"
        [⟨"eth1", "52:54:00:aa:bb:cc", true⟩, ⟨"eth2", "52:54:00:aa:bb:cc", false⟩] =
      (StatusCode.failedPrecondition,
        "Repeated MAC address " ++ "52:54:00:aa:bb:cc", ⟨[], ∅⟩) :=
  create_repeated_mac_rejected ⟨[], ∅⟩ "x" (fun _ => "m") 0 1 1024 1024 "ubuntu"
    "eth1" "eth2" true false "52:54:00:aa:bb:cc" (by decide)

/-! ## Claim C8 -/

/-- If the `i`-th candidate is the first one outside `s`, the attempt
loop accepts it, inserts it and returns it. -/
theorem gen_mac_loop_success (gen : Nat → String) (s : Finset String) :
    ∀ (tries k i : Nat), i < tries → (∀ j, j < i → gen (k + j) ∈ s) →
      gen (k + i) ∉ s →
      gen_mac_loop gen s k tries = .ok (gen (k + i), insert (gen (k + i)) s, k + i + 1) := by
  intro tries
  induction tries with
  | zero => intro k i hi; omega
  | succ t ih =>
    intro k i hi hmem hout
    match i with
    | 0 =>
      simp only [Nat.add_zero] at hout
      simp [gen_mac_loop, hout]
    | j + 1 =>
      have h0 : gen k ∈ s := by
        have := hmem 0 (by omega)
        simpa using this
      have step : ∀ l, l < j → gen (k + 1 + l) ∈ s := by
        intro l hl
        have := hmem (l + 1) (by omega)
        have harith : k + (l + 1) = k + 1 + l := by omega
        rwa [harith] at this
      have harith : k + (j + 1) = k + 1 + j := by omega
      rw [harith]
      have hout' : gen (k + 1 + j) ∉ s := by rwa [harith] at hout
      have := ih (k + 1) j (by omega) step hout'
      simpa [gen_mac_loop, h0] using this

/-- If every candidate offered during the `tries` attempts is already in
`s`, the attempt loop fails with the exhaustion message. -/
theorem gen_mac_loop_exhaust (gen : Nat → String) (s : Finset String) :
    ∀ (tries k : Nat), (∀ i, i < tries → gen (k + i) ∈ s) →
      gen_mac_loop gen s k tries = .error (macExhaustMsg s.card) := by
  intro tries
  induction tries with
  | zero => intro k _; rfl
  | succ t ih =>
    intro k hmem
    have h0 : gen k ∈ s := by simpa using hmem 0 (by omega)
    have step : ∀ i, i < t → gen (k + 1 + i) ∈ s := by
      intro i hi
      have := hmem (i + 1) (by omega)
      have harith : k + (i + 1) = k + 1 + i := by omega
      rwa [harith] at this
    simp [gen_mac_loop, h0, ih (k + 1) step]

/-- Claim C8, counterexample to the stated error kind: when generation
exhausts its five attempts during create, the surfaced status is
failed-precondition (the runtime error is caught by the create path),
not resource-exhausted. -/
theorem mac_exhaustion_kind_counterexample :
    create_vm_commit ⟨[], {"52:54:00:00:00:01"}⟩ "x" (fun _ => "52:54:00:00:00:01") 0
        1 0 0 "ubuntu" [] =
      (StatusCode.failedPrecondition, macExhaustMsg 1, ⟨[], {"52:54:00:00:00:01"}⟩) ∧
      StatusCode.failedPrecondition ≠ StatusCode.resourceExhausted := by
  constructor
  · rfl
  · decide

/-- Claim C8 as amended: a generated candidate MAC is accepted iff it is
absent from the given set, in which case it is inserted and returned
(the first absent candidate wins); if all five attempts hit allocated
addresses the allocator fails with a runtime error, which the create
path surfaces with the failed-precondition kind (not
resource-exhausted). -/
theorem mac_allocator_spec (gen : Nat → String) (s : Finset String) (k : Nat) :
    (∀ i, i < 5 → (∀ j, j < i → gen (k + j) ∈ s) → gen (k + i) ∉ s →
      generate_unused_mac_address gen k s =
        .ok (gen (k + i), insert (gen (k + i)) s, k + i + 1)) ∧
    ((∀ i, i < 5 → gen (k + i) ∈ s) →
      generate_unused_mac_address gen k s = .error (macExhaustMsg s.card)) ∧
    (∀ (st : MacState) (name : String) (cores : Int) (mem disk : Nat) (user : String),
      s = st.allocated_mac_addrs → (∀ i, i < 5 → gen (k + i) ∈ s) →
      create_vm_commit st name gen k cores mem disk user [] =
        (StatusCode.failedPrecondition, macExhaustMsg s.card, st)) := by
  refine ⟨?_, ?_, ?_⟩
  · intro i hi hmem hout
    exact gen_mac_loop_success gen s 5 k i hi hmem hout
  · intro hmem
    exact gen_mac_loop_exhaust gen s 5 k hmem
  · intro st name cores mem disk user hs hmem
    subst hs
    have h := gen_mac_loop_exhaust gen st.allocated_mac_addrs 5 k hmem
    simp [create_vm_commit, prepare_instance_macs, insert_requested_macs,
      generate_missing_macs, generate_unused_mac_address, Bind.bind, Except.bind, h]

/-- Witness for `mac_allocator_spec`: acceptance of the second candidate
after one collision, exhaustion against a saturating generator, and the
failed-precondition surfacing, all at concrete inputs. -/
theorem mac_allocator_spec_witness :
    generate_unused_mac_address (fun i => if i = 0 then "aa" else "bb") 0 {"aa"} =
        .ok ("bb", insert "bb" {"aa"}, 2) ∧
      generate_unused_mac_address (fun _ => "aa") 0 {"aa"} =
        .error (macExhaustMsg 1) ∧
      create_vm_commit ⟨[], {"aa"}⟩ "x" (fun _ => "aa") 0 1 0 0 "ubuntu" [] =
        (StatusCode.failedPrecondition, macExhaustMsg 1, ⟨[], {"aa"}⟩) := by
  refine ⟨?_, ?_, ?_⟩
  · have h := (mac_allocator_spec (fun i => if i = 0 then "aa" else "bb") {"aa"} 0).1
      1 (by decide) (by decide) (by decide)
    simpa using h
  · exact (mac_allocator_spec (fun _ => "aa") {"aa"} 0).2.1 (by decide)
  · exact (mac_allocator_spec (fun _ => "aa") {"aa"} 0).2.2 ⟨[], {"aa"}⟩ "x" 1 0 0
      "ubuntu" rfl (by decide)

/-! ## Claim C5 -/

/-- Concatenation of the recorded error strings, in order (the C++
appends them to one buffer with no separator). -/
def concatErrors : List String → String
  | [] => ""
  | e :: rest => e ++ concatErrors rest

/-- The start loop's fold, characterized from an arbitrary
accumulator. -/
theorem start_batch_go (targets : List (String × VMState)) :
    ∀ acc : StartOutcome,
      targets.foldl start_step acc =
        { start_errors := acc.start_errors ++ concatErrors (targets.filterMap startErrorFor)
          starting_vms :=
            acc.starting_vms ++ (targets.filter (fun t => isWaitState t.2)).map Prod.fst
          started := acc.started ++ (targets.filter (fun t => isStartState t.2)).map Prod.fst
          cancelled_shutdowns :=
            acc.cancelled_shutdowns ++
              (targets.filter (fun t => t.2 = VMState.delayed_shutdown)).map Prod.fst } := by
  induction targets with
  | nil => intro acc; simp [concatErrors]
  | cons head rest ih =>
    intro acc
    obtain ⟨name, state⟩ := head
    cases state <;>
      simp [start_step, startErrorFor, isWaitState, isStartState, concatErrors, ih,
        String.append_assoc, List.append_assoc]

/-- Claim C5: for each operative target of a start batch, the start
state machine acts by current state — unknown and suspending record an
error (with the daemon's messages) and do not start; delayed-shutdown
cancels the pending shutdown and reports success without starting;
running is a no-op recording no error; starting and restarting perform
no hypervisor start but are still added to the async wait list; off,
stopped and suspended invoke the hypervisor start and join the wait
list; and every target of the batch is processed, an error on one never
aborting the others. -/
theorem start_state_machine (targets : List (String × VMState)) :
    start_batch targets =
      { start_errors := concatErrors (targets.filterMap startErrorFor)
        starting_vms := (targets.filter (fun t => isWaitState t.2)).map Prod.fst
        started := (targets.filter (fun t => isStartState t.2)).map Prod.fst
        cancelled_shutdowns :=
          (targets.filter (fun t => t.2 = VMState.delayed_shutdown)).map Prod.fst } := by
  simpa [start_batch] using start_batch_go targets ⟨"", [], [], []⟩

/-! ## Claim C7 -/

/-- The deduplicating ranking loop of `select_instances`, characterized
from arbitrary seen-set and accumulator: every name not yet seen lands,
once, in the partition `find_instance` ranks it into, the operative
table checked before the deleted one. -/
theorem select_instances_go_spec (operative deleted : List String) :
    ∀ (names seen : List String) (acc : InstanceSelectionReport),
      select_instances_go operative deleted names seen acc =
        { operative_selection :=
            acc.operative_selection ++
              (dedupFirst seen names).filter (fun n => operative.contains n)
          deleted_selection :=
            acc.deleted_selection ++
              (dedupFirst seen names).filter
                (fun n => !operative.contains n && deleted.contains n)
          missing_instances :=
            acc.missing_instances ++
              (dedupFirst seen names).filter
                (fun n => !operative.contains n && !deleted.contains n) } := by
  intro names
  induction names with
  | nil => intro seen acc; simp [select_instances_go, dedupFirst]
  | cons n rest ih =>
    intro seen acc
    by_cases hseen : n ∈ seen
    · simp [select_instances_go, dedupFirst, hseen, ih]
    · by_cases hop : n ∈ operative
      · simp [select_instances_go, dedupFirst, hseen, hop, ih, List.append_assoc]
      · by_cases hdel : n ∈ deleted
        · simp [select_instances_go, dedupFirst, hseen, hop, hdel, ih, List.append_assoc]
        · simp [select_instances_go, dedupFirst, hseen, hop, hdel, ih, List.append_assoc]

/-- Claim C7: the selection engine deduplicates the requested names with
the first occurrence winning and places each distinct name in exactly
one of the operative, deleted or missing partitions (operative checked
first); for an empty input the `InstanceGroup` decides the default:
Operative selects all operative instances, Deleted all deleted ones, All
their union, and None selects nothing by name — the all-missing
behavior, every requested name (there are none) being ranked missing. -/
theorem select_instances_spec (operative deleted : List String) :
    (∀ (names : List String) (grp : InstanceGroup), names ≠ [] →
      select_instances operative deleted names grp =
        { operative_selection :=
            (dedupFirst [] names).filter (fun n => operative.contains n)
          deleted_selection :=
            (dedupFirst [] names).filter
              (fun n => !operative.contains n && deleted.contains n)
          missing_instances :=
            (dedupFirst [] names).filter
              (fun n => !operative.contains n && !deleted.contains n) }) ∧
    select_instances operative deleted [] .operative = ⟨operative, [], []⟩ ∧
    select_instances operative deleted [] .deleted = ⟨[], deleted, []⟩ ∧
    select_instances operative deleted [] .all = ⟨operative, deleted, []⟩ ∧
    select_instances operative deleted [] .noneGroup = ⟨[], [], []⟩ := by
  refine ⟨?_, by simp [select_instances], by simp [select_instances],
    by simp [select_instances], by simp [select_instances, select_instances_go]⟩
  intro names grp hne
  have hempty : names.isEmpty = false := by
    cases names with
    | nil => exact absurd rfl hne
    | cons a l => rfl
  simp [select_instances, hempty, select_instances_go_spec]

/-- Witness for `select_instances_spec` at concrete tables and names,
the duplicate name a selected once and each name in exactly one
partition. -/
theorem select_instances_spec_witness :
    select_instances ["a"] ["b"] ["a", "c", "b", "a"] .operative =
      { operative_selection := ["a"]
        deleted_selection := ["b"]
        missing_instances := ["c"] } := by
  have h := (select_instances_spec ["a"] ["b"]).1 ["a", "c", "b", "a"] .operative
    (by decide)
  rw [h]
  decide

/-! ## Claim C2 -/

theorem macUnion_cons (ks : String × VMSpecs) (l : List (String × VMSpecs)) :
    macUnion (ks :: l) = mac_set_from ks.2 ∪ macUnion l := rfl

theorem macUnion_append_singleton (l : List (String × VMSpecs)) (ks : String × VMSpecs) :
    macUnion (l ++ [ks]) = macUnion l ∪ mac_set_from ks.2 := by
  induction l with
  | nil => simp [macUnion]
  | cons a l ih => simp [macUnion_cons, ih, Finset.union_assoc]

theorem mac_subset_macUnion (specs : List (String × VMSpecs)) (e : String × VMSpecs)
    (he : e ∈ specs) : mac_set_from e.2 ⊆ macUnion specs := by
  induction specs with
  | nil => cases he
  | cons a l ih =>
    rcases List.mem_cons.1 he with rfl | he
    · rw [macUnion_cons]
      exact Finset.subset_union_left
    · rw [macUnion_cons]
      exact (ih he).trans Finset.subset_union_right

theorem disjoint_macUnion_of_forall (s : Finset String) (specs : List (String × VMSpecs))
    (h : ∀ e ∈ specs, Disjoint s (mac_set_from e.2)) : Disjoint s (macUnion specs) := by
  induction specs with
  | nil => simp [macUnion]
  | cons a l ih =>
    rw [macUnion_cons, Finset.disjoint_union_right]
    exact ⟨h a (List.mem_cons_self a l), ih fun e he => h e (List.mem_cons_of_mem a he)⟩

/-- A successful `merge_if_disjoint` certifies disjointness and returns
the union. -/
theorem merge_if_disjoint_ok (s t u : Finset String)
    (h : merge_if_disjoint s t = (true, u)) : Disjoint s t ∧ u = s ∪ t := by
  by_cases hf : s.filter (· ∈ t) ≠ ∅
  · simp [merge_if_disjoint, hf] at h
  · push_neg at hf
    refine ⟨Finset.disjoint_left.2 fun m hms hmt => ?_, ?_⟩
    · have : m ∈ s.filter (· ∈ t) := Finset.mem_filter.2 ⟨hms, hmt⟩
      rw [hf] at this
      simp at this
    · simpa [merge_if_disjoint, hf] using h.symm

/-- A successful attempt loop returns a MAC outside the set, inserted. -/
theorem gen_mac_loop_ok (gen : Nat → String) (s : Finset String) :
    ∀ (tries k : Nat) (m : String) (s' : Finset String) (k' : Nat),
      gen_mac_loop gen s k tries = .ok (m, s', k') → m ∉ s ∧ s' = insert m s := by
  intro tries
  induction tries with
  | zero => intro k m s' k' h; simp [gen_mac_loop] at h
  | succ t ih =>
    intro k m s' k' h
    by_cases hmem : gen k ∈ s
    · exact ih (k + 1) m s' k' (by simpa [gen_mac_loop, hmem] using h)
    · simp only [gen_mac_loop, if_neg hmem, Except.ok.injEq, Prod.mk.injEq] at h
      obtain ⟨h1, h2, h3⟩ := h
      exact ⟨h1 ▸ hmem, by rw [← h2, h1]⟩

/-- Non-empty MAC addresses of an interface list, as a set. -/
def requestedMacs (l : List NetworkInterface) : Finset String :=
  ((l.map (·.mac_address)).filter (· ≠ "")).toFinset

/-- The first create pass grows the tentative set by exactly the
requested MACs, which are disjoint from it. -/
theorem insert_requested_macs_ok (l : List NetworkInterface) :
    ∀ (s s₁ : Finset String), insert_requested_macs s l = .ok s₁ →
      s₁ = s ∪ requestedMacs l ∧ Disjoint (requestedMacs l) s := by
  induction l with
  | nil =>
    intro s s₁ h
    simp [insert_requested_macs] at h
    simp [h.symm, requestedMacs]
  | cons iface rest ih =>
    intro s s₁ h
    by_cases hempty : iface.mac_address = ""
    · have h' := ih s s₁ (by simpa [insert_requested_macs, hempty] using h)
      simpa [requestedMacs, hempty] using h'
    · by_cases hmem : iface.mac_address ∈ s
      · simp [insert_requested_macs, hempty, hmem] at h
      · have h' := ih (insert iface.mac_address s) s₁
          (by simpa [insert_requested_macs, hempty, hmem] using h)
        have hset : requestedMacs (iface :: rest) =
            insert iface.mac_address (requestedMacs rest) := by
          simp [requestedMacs, hempty]
        constructor
        · rw [h'.1, hset]
          rw [Finset.union_comm s, Finset.insert_union, Finset.union_comm _ s,
            Finset.union_insert]
        · rw [hset, Finset.disjoint_insert_left]
          exact ⟨hmem, h'.2.mono_right (Finset.subset_insert _ s)⟩

/-- The second create pass keeps the requested MACs and completes the
list with generated ones, which are fresh for the tentative set. -/
theorem generate_missing_macs_ok (gen : Nat → String) :
    ∀ (l : List NetworkInterface) (k : Nat) (s : Finset String)
      (l' : List NetworkInterface) (s₂ : Finset String) (k' : Nat),
      generate_missing_macs gen k s l = .ok (l', s₂, k') →
      (∀ i ∈ l, i.mac_address ≠ "" → i.mac_address ∈ s) →
      ∃ G : Finset String, s₂ = s ∪ G ∧ Disjoint G s ∧
        (l'.map (·.mac_address)).toFinset = requestedMacs l ∪ G := by
  intro l
  induction l with
  | nil =>
    intro k s l' s₂ k' h _
    simp only [generate_missing_macs, Except.ok.injEq, Prod.mk.injEq] at h
    obtain ⟨h1, h2, h3⟩ := h
    exact ⟨∅, by simp [← h1, ← h2, requestedMacs]⟩
  | cons iface rest ih =>
    intro k s l' s₂ k' h hreq
    by_cases hempty : iface.mac_address = ""
    · rw [generate_missing_macs, if_pos hempty] at h
      cases hg : generate_unused_mac_address gen k s with
      | error e => rw [hg] at h; cases h
      | ok t =>
        obtain ⟨mac, s1, k1⟩ := t
        obtain ⟨hmac_out, hs1⟩ := gen_mac_loop_ok gen s 5 k mac s1 k1 hg
        rw [hg] at h
        dsimp only at h
        cases hr : generate_missing_macs gen k1 s1 rest with
        | error e => rw [hr] at h; cases h
        | ok r =>
          rw [hr] at h
          simp only [Except.map, Except.ok.injEq, Prod.mk.injEq] at h
          obtain ⟨hl', hs₂, hk'⟩ := h
          have hreq' : ∀ i ∈ rest, i.mac_address ≠ "" → i.mac_address ∈ s1 := by
            intro i hi hne
            rw [hs1]
            exact Finset.mem_insert_of_mem (hreq i (List.mem_cons_of_mem _ hi) hne)
          obtain ⟨G, hG1, hG2, hG3⟩ := ih k1 s1 r.1 r.2.1 r.2.2 hr hreq'
          refine ⟨insert mac G, ?_, ?_, ?_⟩
          · rw [← hs₂, hG1, hs1, Finset.insert_union, Finset.union_insert]
          · rw [Finset.disjoint_insert_left]
            exact ⟨hmac_out, (hG2.mono_right (hs1 ▸ Finset.subset_insert _ s))⟩
          · rw [← hl']
            simp only [List.map_cons, List.toFinset_cons]
            rw [hG3]
            have : requestedMacs (iface :: rest) = requestedMacs rest := by
              simp [requestedMacs, hempty]
            rw [this, Finset.union_insert]
    · rw [generate_missing_macs, if_neg hempty] at h
      cases hr : generate_missing_macs gen k s rest with
      | error e => rw [hr] at h; cases h
      | ok r =>
        rw [hr] at h
        simp only [Except.map, Except.ok.injEq, Prod.mk.injEq] at h
        obtain ⟨hl', hs₂, hk'⟩ := h
        have hreq' : ∀ i ∈ rest, i.mac_address ≠ "" → i.mac_address ∈ s := fun i hi =>
          hreq i (List.mem_cons_of_mem _ hi)
        obtain ⟨G, hG1, hG2, hG3⟩ := ih k s r.1 r.2.1 r.2.2 hr hreq'
        refine ⟨G, by rw [← hs₂, hG1], hG2, ?_⟩
        rw [← hl']
        simp only [List.map_cons, List.toFinset_cons]
        rw [hG3]
        have : requestedMacs (iface :: rest) =
            insert iface.mac_address (requestedMacs rest) := by
          simp [requestedMacs, hempty]
        rw [this, Finset.insert_union]

/-- The MAC phase of create: on success the tentative set is exactly the
allocated set plus the new spec's MACs (default plus extras), and those
new MACs are disjoint from the allocated set. -/
theorem prepare_instance_macs_ok (gen : Nat → String) (k : Nat) (alloc : Finset String)
    (extras : List NetworkInterface) (d : String) (ex : List NetworkInterface)
    (s' : Finset String)
    (h : prepare_instance_macs gen k alloc extras = .ok (d, ex, s')) :
    s' = alloc ∪ insert d (ex.map (·.mac_address)).toFinset ∧
      Disjoint (insert d (ex.map (·.mac_address)).toFinset) alloc := by
  rw [prepare_instance_macs] at h
  cases h1 : insert_requested_macs alloc extras with
  | error e => rw [h1] at h; cases h
  | ok s₁ =>
    rw [h1] at h
    obtain ⟨hs₁, hMdisj⟩ := insert_requested_macs_ok extras alloc s₁ h1
    simp only [bind, Except.bind] at h
    cases h2 : generate_missing_macs gen k s₁ extras with
    | error e => rw [h2] at h; cases h
    | ok r =>
      obtain ⟨ex₂, s₂, k₂⟩ := r
      rw [h2] at h
      have hreq : ∀ i ∈ extras, i.mac_address ≠ "" → i.mac_address ∈ s₁ := by
        intro i hi hne
        rw [hs₁]
        refine Finset.mem_union_right _ ?_
        simp only [requestedMacs, List.mem_toFinset, List.mem_filter]
        exact ⟨List.mem_map_of_mem _ hi, by simpa using hne⟩
      obtain ⟨G, hG1, hG2, hG3⟩ :=
        generate_missing_macs_ok gen extras k s₁ ex₂ s₂ k₂ h2 hreq
      dsimp only at h
      cases h3 : generate_unused_mac_address gen k₂ s₂ with
      | error e => rw [h3] at h; cases h
      | ok t =>
        obtain ⟨d₃, s₃, k₃⟩ := t
        rw [h3] at h
        obtain ⟨hd_out, hs₃⟩ := gen_mac_loop_ok gen s₂ 5 k₂ d₃ s₃ k₃ h3
        simp only [pure, Except.pure, Except.ok.injEq, Prod.mk.injEq] at h
        obtain ⟨hd, hex, hs'⟩ := h
        subst hd hex
        have halloc_sub : alloc ⊆ s₂ := by
          rw [hG1, hs₁]
          exact Finset.subset_union_left.trans Finset.subset_union_left
        constructor
        · rw [← hs', hs₃, hG1, hs₁, hG3]
          rw [Finset.union_insert, Finset.union_assoc]
        · rw [Finset.disjoint_insert_left]
          constructor
          · exact fun hmem => hd_out (halloc_sub hmem)
          · rw [hG3, Finset.disjoint_union_left]
            refine ⟨hMdisj, ?_⟩
            exact hG2.mono_right (hs₁ ▸ Finset.subset_union_left)

/-- Create preserves the MAC bookkeeping invariant: the spec's MACs join
the allocated set exactly when the create commits, and a failed create
leaves the state untouched. -/
theorem create_vm_commit_preserves (st : MacState) (name : String) (gen : Nat → String)
    (k : Nat) (cores : Int) (mem disk : Nat) (user : String)
    (extras : List NetworkInterface) (hI : MacInvariant st) :
    MacInvariant (create_vm_commit st name gen k cores mem disk user extras).2.2 := by
  obtain ⟨hunion, hpair⟩ := hI
  cases hp : prepare_instance_macs gen k st.allocated_mac_addrs extras with
  | error e => simpa [create_vm_commit, hp] using ⟨hunion, hpair⟩
  | ok t =>
    obtain ⟨d, ex, s'⟩ := t
    obtain ⟨hs', hdisj⟩ :=
      prepare_instance_macs_ok gen k st.allocated_mac_addrs extras d ex s' hp
    rw [create_vm_commit, hp]
    constructor
    · rw [macUnion_append_singleton, hunion]
      rw [mac_set_from]
      exact hs'.symm
    · rw [List.pairwise_append]
      refine ⟨hpair, List.pairwise_singleton _ _, ?_⟩
      intro e he b hb
      rw [List.mem_singleton] at hb
      subst hb
      have hsub : mac_set_from e.2 ⊆ st.allocated_mac_addrs :=
        hunion ▸ mac_subset_macUnion st.vm_instance_specs e he
      exact (hdisj.mono_right hsub).symm

/-- Erasing the entry `find?` located removes exactly its MAC set from
the union and keeps the specs pairwise disjoint. -/
theorem eraseP_macUnion (p : String × VMSpecs → Bool) :
    ∀ (specs : List (String × VMSpecs)) (ksr : String × VMSpecs),
      (specs.Pairwise fun a b => Disjoint (mac_set_from a.2) (mac_set_from b.2)) →
      specs.find? p = some ksr →
      macUnion (specs.eraseP p) = macUnion specs \ mac_set_from ksr.2 ∧
        ((specs.eraseP p).Pairwise fun a b =>
          Disjoint (mac_set_from a.2) (mac_set_from b.2)) := by
  intro specs
  induction specs with
  | nil => intro ksr _ hfind; cases hfind
  | cons ks rest ih =>
    intro ksr hpair hfind
    obtain ⟨hhead, htail⟩ := List.pairwise_cons.1 hpair
    by_cases hp : p ks
    · rw [List.find?_cons_of_pos rest hp, Option.some.injEq] at hfind
      subst hfind
      have hdisj : Disjoint (mac_set_from ks.2) (macUnion rest) :=
        disjoint_macUnion_of_forall _ rest hhead
      rw [List.eraseP_cons_of_pos hp, macUnion_cons]
      exact ⟨(Finset.union_sdiff_cancel_left hdisj).symm, htail⟩
    · rw [List.find?_cons_of_neg rest hp] at hfind
      obtain ⟨hu, hpw⟩ := ih ksr htail hfind
      have hksr_mem : ksr ∈ rest := List.mem_of_find?_eq_some hfind
      have hd_ks : Disjoint (mac_set_from ks.2) (mac_set_from ksr.2) := hhead ksr hksr_mem
      rw [List.eraseP_cons_of_neg hp]
      constructor
      · rw [macUnion_cons, hu, macUnion_cons, Finset.union_sdiff_distrib,
          (Finset.sdiff_eq_self_iff_disjoint).2 hd_ks]
      · rw [List.pairwise_cons]
        exact ⟨fun b hb => hhead b (List.mem_of_mem_eraseP hb), hpw⟩

/-- `release_resources` preserves the MAC invariant from any state
satisfying it: exactly the released spec's MACs leave the allocated
set. -/
theorem release_resources_preserves (st : MacState) (name : String)
    (hI : MacInvariant st) : MacInvariant (release_resources st name) := by
  obtain ⟨hunion, hpair⟩ := hI
  rw [release_resources]
  cases hf : st.vm_instance_specs.find? (fun ks => decide (ks.1 = name)) with
  | none => exact ⟨hunion, hpair⟩
  | some ksr =>
    obtain ⟨hu, hpw⟩ := eraseP_macUnion _ st.vm_instance_specs ksr hpair hf
    exact ⟨by rw [hu, hunion], hpw⟩

/-- `purge` (release over every deleted instance) preserves the MAC
invariant. -/
theorem purge_preserves (names : List String) :
    ∀ st : MacState, MacInvariant st → MacInvariant (purge st names) := by
  induction names with
  | nil => intro st hI; exact hI
  | cons n rest ih =>
    intro st hI
    exact ih (release_resources st n) (release_resources_preserves st n hI)

/-- Appending a spec whose MACs are disjoint from the allocated set,
while merging those MACs in, preserves the MAC invariant. -/
theorem macstate_append_preserves (st : MacState) (name : String) (spec' : VMSpecs)
    (hI : MacInvariant st)
    (hdisj : Disjoint (mac_set_from spec') st.allocated_mac_addrs) :
    MacInvariant ⟨st.vm_instance_specs ++ [(name, spec')],
      mac_set_from spec' ∪ st.allocated_mac_addrs⟩ := by
  obtain ⟨hunion, hpair⟩ := hI
  constructor
  · show macUnion (st.vm_instance_specs ++ [(name, spec')]) = _
    rw [macUnion_append_singleton, hunion, Finset.union_comm]
  · show List.Pairwise _ (st.vm_instance_specs ++ [(name, spec')])
    rw [List.pairwise_append]
    refine ⟨hpair, List.pairwise_singleton _ _, ?_⟩
    intro e he b hb
    rw [List.mem_singleton] at hb
    subst hb
    have hsub : mac_set_from e.2 ⊆ st.allocated_mac_addrs :=
      hunion ▸ mac_subset_macUnion st.vm_instance_specs e he
    exact (hdisj.mono_right hsub).symm

/-- One reconciliation step preserves the MAC invariant: a spec's MACs
are admitted into the allocated set iff the spec itself is admitted. -/
theorem reconcile_step_preserves (vault_ok image_ok : String → Bool) (st : MacState)
    (entry : String × VMSpecs) (hI : MacInvariant st) :
    MacInvariant (reconcile_step vault_ok image_ok st entry) := by
  obtain ⟨name, spec⟩ := entry
  by_cases hv : vault_ok name
  · by_cases hguard : (mac_set_from spec).card ≤ spec.extra_interfaces.length ||
        !(merge_if_disjoint (mac_set_from spec) st.allocated_mac_addrs).1
    · simpa [reconcile_step, hv, hguard] using hI
    · by_cases himg : image_ok name
      · have hguard' : (decide ((mac_set_from spec).card ≤ spec.extra_interfaces.length) ||
            !(merge_if_disjoint (mac_set_from spec) st.allocated_mac_addrs).1) = false := by
          simpa using hguard
        have hdis : (merge_if_disjoint (mac_set_from spec) st.allocated_mac_addrs).1
            = true := by
          cases hb : (merge_if_disjoint (mac_set_from spec) st.allocated_mac_addrs).1 with
          | false => rw [hb] at hguard'; simp at hguard'
          | true => rfl
        have hm : merge_if_disjoint (mac_set_from spec) st.allocated_mac_addrs =
            (true, (merge_if_disjoint (mac_set_from spec) st.allocated_mac_addrs).2) := by
          rw [← hdis]
        obtain ⟨hdisj, hmerged⟩ := merge_if_disjoint_ok _ _ _ hm
        have hmac_eq : mac_set_from (coerce_deleted_state spec) = mac_set_from spec := by
          rw [coerce_deleted_state]
          split
          · rfl
          · rfl
        have hstep : reconcile_step vault_ok image_ok st (name, spec) =
            ⟨st.vm_instance_specs ++ [(name, coerce_deleted_state spec)],
              (merge_if_disjoint (mac_set_from spec) st.allocated_mac_addrs).2⟩ := by
          simp [reconcile_step, hv, hguard', himg]
        rw [hstep, hmerged, ← hmac_eq]
        exact macstate_append_preserves st name _ hI (hmac_eq ▸ hdisj)
      · simpa [reconcile_step, hv, hguard, himg] using hI
  · simpa [reconcile_step, hv] using hI

/-- The reconciliation fold preserves the MAC invariant from any
starting state. -/
theorem reconcile_fold_preserves (vault_ok image_ok : String → Bool) :
    ∀ (loaded : List (String × VMSpecs)) (st : MacState), MacInvariant st →
      MacInvariant (loaded.foldl (reconcile_step vault_ok image_ok) st) := by
  intro loaded
  induction loaded with
  | nil => intro st hI; exact hI
  | cons e rest ih =>
    intro st hI
    exact ih (reconcile_step vault_ok image_ok st e)
      (reconcile_step_preserves vault_ok image_ok st e hI)

/-- Claim C2: after every operation that moves MAC ownership, the union
of the MAC addresses (default plus extra-interface) over all registered
instance specifications equals the daemon's allocated-MAC set — startup
reconciliation admits a spec's MACs iff the spec is admitted, a
committed create adds exactly the new spec's MACs (a failed one changes
nothing), and release/purge remove exactly the released specs' MACs;
pairwise disjointness of the specs' MAC sets is preserved alongside. -/
theorem mac_union_invariant :
    (∀ (vault_ok image_ok : String → Bool) (loaded : List (String × VMSpecs)),
      MacInvariant (reconcile vault_ok image_ok loaded)) ∧
    (∀ (st : MacState) (name : String) (gen : Nat → String) (k : Nat) (cores : Int)
      (mem disk : Nat) (user : String) (extras : List NetworkInterface),
      MacInvariant st →
      MacInvariant (create_vm_commit st name gen k cores mem disk user extras).2.2) ∧
    (∀ (st : MacState) (name : String), MacInvariant st →
      MacInvariant (release_resources st name)) ∧
    (∀ (st : MacState) (names : List String), MacInvariant st →
      MacInvariant (purge st names)) := by
  refine ⟨?_, create_vm_commit_preserves, release_resources_preserves,
    fun st names => purge_preserves names st⟩
  intro vault_ok image_ok loaded
  rw [reconcile]
  exact reconcile_fold_preserves vault_ok image_ok loaded ⟨[], ∅⟩ ⟨rfl, List.Pairwise.nil⟩

/-- Witness for `mac_union_invariant`: the reconciliation of one
concrete spec, and create, release and purge applied to a concrete
invariant-satisfying state. -/
theorem mac_union_invariant_witness :
    MacInvariant (reconcile (fun _ => true) (fun _ => true)
      [("x", ⟨1, 1024, 1024, "52:54:00:00:00:01", [], "ubuntu", .running, [], false, []⟩)]) ∧
    MacInvariant (create_vm_commit
      ⟨[("x", ⟨1, 1024, 1024, "52:54:00:00:00:01", [], "ubuntu", .running, [], false, []⟩)],
        {"52:54:00:00:00:01"}⟩
      "y" (fun _ => "52:54:00:00:00:02") 0 1 1024 1024 "ubuntu" []).2.2 ∧
    MacInvariant (release_resources
      ⟨[("x", ⟨1, 1024, 1024, "52:54:00:00:00:01", [], "ubuntu", .running, [], false, []⟩)],
        {"52:54:00:00:00:01"}⟩ "x") ∧
    MacInvariant (purge
      ⟨[("x", ⟨1, 1024, 1024, "52:54:00:00:00:01", [], "ubuntu", .stopped, [], true, []⟩)],
        {"52:54:00:00:00:01"}⟩ ["x"]) := by
  have hI : MacInvariant
      ⟨[("x", ⟨1, 1024, 1024, "52:54:00:00:00:01", [], "ubuntu", .running, [], false, []⟩)],
        {"52:54:00:00:00:01"}⟩ := by
    constructor
    · simp [macUnion, mac_set_from]
    · exact List.pairwise_singleton _ _
  have hI' : MacInvariant
      ⟨[("x", ⟨1, 1024, 1024, "52:54:00:00:00:01", [], "ubuntu", .stopped, [], true, []⟩)],
        {"52:54:00:00:00:01"}⟩ := by
    constructor
    · simp [macUnion, mac_set_from]
    · exact List.pairwise_singleton _ _
  refine ⟨mac_union_invariant.1 (fun _ => true) (fun _ => true) _,
    mac_union_invariant.2.1 _ "y" (fun _ => "52:54:00:00:00:02") 0 1 1024 1024 "ubuntu" [] hI,
    mac_union_invariant.2.2.1 _ "x" hI,
    mac_union_invariant.2.2.2 _ ["x"] hI'⟩

/-! ## Claim C3 -/

/-- A well-formed non-ghost record used in the load counterexamples. -/
def goodRec : JsonRecord :=
  { num_cores := 1
    mem_size := "1024"
    disk_space := "1024"
    ssh_username := "ubuntu"
    state := 1
    deleted := false
    metadata := []
    mac_addr := "52:54:00:12:34:56"
    extra_interfaces := []
    mounts := [] }

/-- A record that is a ghost by its field values: zero cores, empty
username, empty metadata, zero memory, zero disk, deleted=false. -/
def ghostRec : JsonRecord :=
  { num_cores := 0
    mem_size := ""
    disk_space := ""
    ssh_username := ""
    state := 0
    deleted := false
    metadata := []
    mac_addr := ""
    extra_interfaces := []
    mounts := [] }

/-- Dropping a fields-ghost record from the document does not change the
result of the load, wherever it sits. -/
theorem load_db_go_ghost (k : String) (r : JsonRecord) (h : isGhostRecord r = true) :
    ∀ (pre : JsonDoc) (acc : List (String × VMSpecs)) (post : JsonDoc),
      load_db_go acc (pre ++ (k, some r) :: post) = load_db_go acc (pre ++ post) := by
  intro pre
  induction pre with
  | nil =>
    intro acc post
    simp [load_db_go, load_record, h]
  | cons e rest ih =>
    intro acc post
    obtain ⟨k', orec⟩ := e
    cases orec with
    | none => simp [load_db_go]
    | some r' =>
      cases hr : load_record r' with
      | error e' => simp [load_db_go, hr]
      | ok o =>
        cases o with
        | none => simpa [load_db_go, hr] using ih acc post
        | some spec => simpa [load_db_go, hr] using ih (specUpsert acc k' spec) post

/-- Claim C3, counterexample: an *empty* record does not merely drop
with a warning — it abandons the whole load, returning the empty
registry even though the other record loads fine on its own. -/
theorem empty_record_abandons_load_counterexample :
    load_db [("a", none), ("b", some goodRec)] = .ok [] ∧
      load_db [("b", some goodRec)] =
        .ok [("b",
          { num_cores := 1
            mem_size := 1024
            disk_space := 1024
            default_mac_address := "52:54:00:12:34:56"
            extra_interfaces := []
            ssh_username := "ubuntu"
            state := .stopped
            mounts := []
            deleted := false
            metadata := [] })] := by
  constructor
  · rfl
  · rfl

/-- Claim C3 as amended: a record with zero cores, empty username, empty
metadata, zero memory, zero disk and deleted=false is dropped as a ghost
with a warning while loading proceeds for all the other records; an
empty record, however, abandons the whole load, which returns the empty
registry. -/
theorem ghost_record_dropped (pre post : JsonDoc) (k : String) (r : JsonRecord)
    (h : isGhostRecord r = true) :
    load_db (pre ++ (k, some r) :: post) = load_db (pre ++ post) ∧
      ∀ (k' : String) (post' : JsonDoc), load_db ((k', none) :: post') = .ok [] := by
  exact ⟨load_db_go_ghost k r h pre [] post, fun k' post' => rfl⟩

/-- Witness for `ghost_record_dropped`: the concrete ghost record
between two loadable records, and a concrete empty record. -/
theorem ghost_record_dropped_witness :
    load_db [("b", some goodRec), ("g", some ghostRec), ("c", some goodRec)] =
        load_db [("b", some goodRec), ("c", some goodRec)] ∧
      ∀ (k' : String) (post' : JsonDoc), load_db ((k', none) :: post') = .ok [] :=
  ghost_record_dropped [("b", some goodRec)] [("c", some goodRec)] "g" ghostRec
    (by decide)

/-! ## Claim C6 -/

/-- The in-memory spec a canonical non-ghost record loads to. -/
def specOf (r : JsonRecord) : VMSpecs :=
  { num_cores := r.num_cores
    mem_size := mem_in_bytes r.mem_size
    disk_space := mem_in_bytes r.disk_space
    default_mac_address := r.mac_addr
    extra_interfaces := r.extra_interfaces
    ssh_username := r.ssh_username
    state := stateOfInt r.state
    mounts := load_mounts r.mounts
    deleted := r.deleted
    metadata := r.metadata }

/-- Canonical persisted shape of a record's `mounts` array: distinct
target paths and UID/GID mapping lists already deduplicated by host
id. -/
@[reducible]
def canonicalMounts (ms : List JsonMount) : Prop :=
  (ms.map (·.target_path)).Nodup ∧
    ∀ m ∈ ms, unique_id_mappings m.uid_mappings = m.uid_mappings ∧
      unique_id_mappings m.gid_mappings = m.gid_mappings

/-- Canonical persisted shape of a record, i.e. the shape
`vm_spec_to_json` emits: memory and disk are canonical decimal byte
strings, the state code round-trips through the enum, the SSH username
is non-empty, every MAC is valid, and the mounts are canonical. -/
@[reducible]
def canonicalRecord (r : JsonRecord) : Prop :=
  r.mem_size = toString (mem_in_bytes r.mem_size) ∧
    r.disk_space = toString (mem_in_bytes r.disk_space) ∧
    r.ssh_username ≠ "" ∧
    stateToInt (stateOfInt r.state) = r.state ∧
    valid_mac_address r.mac_addr = true ∧
    (∀ i ∈ r.extra_interfaces, valid_mac_address i.mac_address = true) ∧
    canonicalMounts r.mounts

/-- Reading extra interfaces whose MACs are all valid returns them
unchanged. -/
theorem read_extra_interfaces_ok (l : List NetworkInterface)
    (h : ∀ i ∈ l, valid_mac_address i.mac_address = true) :
    read_extra_interfaces l = .ok l := by
  induction l with
  | nil => rfl
  | cons iface rest ih =>
    rw [read_extra_interfaces, if_pos (h iface (List.mem_cons_self iface rest)),
      ih fun i hi => h i (List.mem_cons_of_mem _ hi)]
    rfl

/-- The mount entry a canonical `JsonMount` loads to. -/
def mountOf (e : JsonMount) : VMMount :=
  { source_path := e.source_path
    gid_mappings := unique_id_mappings e.gid_mappings
    uid_mappings := unique_id_mappings e.uid_mappings
    mount_type := e.mount_type }

/-- With distinct target paths, the mounts-map fold is a plain append in
array order. -/
theorem load_mounts_nodup (entries : List JsonMount) :
    ∀ acc : List (String × VMMount),
      (entries.map (·.target_path)).Nodup →
      (∀ e ∈ entries, acc.all fun q => q.1 ≠ e.target_path) →
      entries.foldl (fun acc e => mountUpsert acc e.target_path (mountOf e)) acc =
        acc ++ entries.map fun e => (e.target_path, mountOf e) := by
  induction entries with
  | nil => intro acc _ _; simp
  | cons e rest ih =>
    intro acc hnodup hacc
    have hfresh : acc.any (fun q => q.1 = e.target_path) = false := by
      have := hacc e (List.mem_cons_self e rest)
      rw [List.all_eq_true] at this
      rw [List.any_eq_false]
      intro q hq
      simpa using this q hq
    rw [List.foldl_cons]
    rw [show mountUpsert acc e.target_path (mountOf e) =
        acc ++ [(e.target_path, mountOf e)] by rw [mountUpsert, hfresh]; rfl]
    have hnodup' : (rest.map (·.target_path)).Nodup :=
      (List.nodup_cons.1 (by simpa using hnodup)).2
    have hnotin : e.target_path ∉ rest.map (·.target_path) :=
      (List.nodup_cons.1 (by simpa using hnodup)).1
    have hacc' : ∀ e' ∈ rest, ((acc ++ [(e.target_path, mountOf e)]).all
        fun q => q.1 ≠ e'.target_path) = true := by
      intro e' he'
      have h1 := hacc e' (List.mem_cons_of_mem _ he')
      have h2 : e.target_path ≠ e'.target_path := fun hc =>
        hnotin (hc ▸ List.mem_map_of_mem (·.target_path) he')
      rw [List.all_append, Bool.and_eq_true]
      exact ⟨by simpa using h1, by simp [h2]⟩
    rw [ih (acc ++ [(e.target_path, mountOf e)]) hnodup' hacc']
    simp

/-- Round trip of the mounts array through load and persist, for
canonical mounts. -/
theorem persist_load_mounts (ms : List JsonMount) (h : canonicalMounts ms) :
    persist_mounts (load_mounts ms) = ms := by
  obtain ⟨hnodup, hids⟩ := h
  rw [load_mounts]
  rw [show (fun (acc : List (String × VMMount)) (e : JsonMount) =>
      mountUpsert acc e.target_path
        { source_path := e.source_path
          gid_mappings := unique_id_mappings e.gid_mappings
          uid_mappings := unique_id_mappings e.uid_mappings
          mount_type := e.mount_type }) =
      fun acc e => mountUpsert acc e.target_path (mountOf e) from rfl]
  rw [load_mounts_nodup ms [] hnodup (by intro e _; rfl)]
  rw [List.nil_append, persist_mounts, List.map_map]
  have : ∀ e ∈ ms, ((fun tm : String × VMMount =>
      { source_path := tm.2.source_path
        target_path := tm.1
        uid_mappings := tm.2.uid_mappings
        gid_mappings := tm.2.gid_mappings
        mount_type := tm.2.mount_type : JsonMount }) ∘
      fun e => (e.target_path, mountOf e)) e = id e := by
    intro e he
    obtain ⟨hu, hg⟩ := hids e he
    simp only [Function.comp, mountOf, id]
    rw [hu, hg]
  rw [List.map_congr_left this, List.map_id]

/-- A canonical non-ghost record loads to `specOf` and persists back to
itself. -/
theorem load_record_canonical (r : JsonRecord) (hc : canonicalRecord r)
    (hg : isGhostRecord r = false) :
    load_record r = .ok (some (specOf r)) ∧ vm_spec_to_json (specOf r) = r := by
  obtain ⟨hmem, hdisk, hssh, hstate, hmac, hextras, hmounts⟩ := hc
  have hmem_ne : r.mem_size ≠ "" := by
    intro h
    rw [h] at hmem
    exact absurd hmem (by decide)
  have hdisk_ne : r.disk_space ≠ "" := by
    intro h
    rw [h] at hdisk
    exact absurd hdisk (by decide)
  constructor
  · rw [load_record, if_neg (by simp [hg]), if_neg (by simp [hmac]),
      read_extra_interfaces_ok r.extra_interfaces hextras]
    rw [if_neg hssh, if_neg hmem_ne, if_neg hdisk_ne]
    rfl
  · rw [show r = JsonRecord.mk r.num_cores r.mem_size r.disk_space r.ssh_username
      r.state r.deleted r.metadata r.mac_addr r.extra_interfaces r.mounts from rfl]
    simp only [vm_spec_to_json, specOf, JsonRecord.mk.injEq, and_true, true_and]
    exact ⟨hmem.symm, hdisk.symm, hstate, persist_load_mounts r.mounts hmounts⟩

/-- The load loop over canonical records with fresh, pairwise-distinct
keys appends exactly the non-ghost records, loaded. -/
theorem load_db_go_canonical :
    ∀ (doc : List (String × JsonRecord)) (acc : List (String × VMSpecs)),
      (∀ p ∈ doc, canonicalRecord p.2 ∨ isGhostRecord p.2 = true) →
      (doc.map Prod.fst).Nodup →
      (∀ k ∈ doc.map Prod.fst, (acc.all fun q => q.1 ≠ k) = true) →
      load_db_go acc (doc.map fun p => (p.1, some p.2)) =
        .ok (acc ++ (doc.filter fun p => !isGhostRecord p.2).map
          fun p => (p.1, specOf p.2)) := by
  intro doc
  induction doc with
  | nil => intro acc _ _ _; simp [load_db_go]
  | cons p rest ih =>
    intro acc hcanon hkeys hacc
    obtain ⟨k, r⟩ := p
    cases hg : isGhostRecord r with
    | true =>
      have hload : load_record r = .ok none := by rw [load_record, if_pos (by simp [hg])]
      rw [List.map_cons, load_db_go, hload]
      dsimp only
      rw [ih acc (fun q hq => hcanon q (List.mem_cons_of_mem _ hq))
        (by simpa using (List.nodup_cons.1 (by simpa using hkeys)).2)
        (fun k' hk' => hacc k' (by simp [hk']))]
      simp [hg]
    | false =>
      have hcr : canonicalRecord r := by
        rcases hcanon (k, r) (List.mem_cons_self _ rest) with h | h
        · exact h
        · rw [hg] at h
          cases h
      obtain ⟨hload, _⟩ := load_record_canonical r hcr hg
      rw [List.map_cons, load_db_go, hload]
      dsimp only
      have hfresh : acc.any (fun q => q.1 = k) = false := by
        have := hacc k (by simp)
        rw [List.all_eq_true] at this
        rw [List.any_eq_false]
        intro q hq
        simpa using this q hq
      have hupsert : specUpsert acc k (specOf r) = acc ++ [(k, specOf r)] := by
        rw [specUpsert, hfresh]
        rfl
      rw [hupsert]
      have hnotin : k ∉ rest.map Prod.fst :=
        (List.nodup_cons.1 (by simpa using hkeys)).1
      have hacc' : ∀ k' ∈ rest.map Prod.fst,
          ((acc ++ [(k, specOf r)]).all fun q => q.1 ≠ k') = true := by
        intro k' hk'
        have h1 := hacc k' (by simp [hk'])
        have h2 : k ≠ k' := fun hc => hnotin (hc ▸ hk')
        rw [List.all_append, Bool.and_eq_true]
        exact ⟨h1, by simp [h2]⟩
      rw [ih (acc ++ [(k, specOf r)]) (fun q hq => hcanon q (List.mem_cons_of_mem _ hq))
        (by simpa using (List.nodup_cons.1 (by simpa using hkeys)).2) hacc']
      simp [hg]

/-- Claim C6 as amended: for every persisted registry document whose
records are non-empty and each either a fields-ghost or in the
canonical shape `vm_spec_to_json` emits — valid MACs, memory and disk
as canonical decimal byte strings, state code round-tripping through
the enum, non-empty SSH username, deduplicated UID/GID mappings,
distinct mount targets — and whose instance names are distinct,
persisting the in-memory registry obtained by loading that document
yields the same document again, up to canonical ordering and
elimination of ghost records.  (The canonicity hypotheses are
necessary: the codec defaults an empty SSH username to "ubuntu",
rewrites size strings to decimal bytes, and deduplicates UID/GID
mappings, see the counterexample.) -/
theorem persist_load_roundtrip (doc : List (String × JsonRecord))
    (hcanon : ∀ p ∈ doc, canonicalRecord p.2 ∨ isGhostRecord p.2 = true)
    (hkeys : (doc.map Prod.fst).Nodup) :
    load_db (doc.map fun p => (p.1, some p.2)) =
        .ok ((doc.filter fun p => !isGhostRecord p.2).map fun p => (p.1, specOf p.2)) ∧
      persist_instances
          ((doc.filter fun p => !isGhostRecord p.2).map fun p => (p.1, specOf p.2)) =
        (doc.filter fun p => !isGhostRecord p.2).map fun p => (p.1, some p.2) := by
  constructor
  · rw [load_db, load_db_go_canonical doc [] hcanon hkeys (fun k _ => rfl)]
    rfl
  · rw [persist_instances, List.map_map]
    refine List.map_congr_left ?_
    intro p hp
    rw [List.mem_filter] at hp
    obtain ⟨hp_mem, hp_ng⟩ := hp
    have hng : isGhostRecord p.2 = false := by simpa using hp_ng
    have hcr : canonicalRecord p.2 := by
      rcases hcanon p hp_mem with h | h
      · exact h
      · rw [hng] at h
        cases h
    obtain ⟨_, hpersist⟩ := load_record_canonical p.2 hcr hng
    simp only [Function.comp]
    rw [hpersist]

/-- Witness for `persist_load_roundtrip`: a two-record canonical
document, one record a ghost, round-trips to the document minus the
ghost. -/
theorem persist_load_roundtrip_witness :
    load_db [("b", some goodRec), ("g", some ghostRec)] =
        .ok [("b", specOf goodRec)] ∧
      persist_instances [("b", specOf goodRec)] = [("b", some goodRec)] := by
  have h := persist_load_roundtrip [("b", goodRec), ("g", ghostRec)]
    (by decide) (by decide)
  obtain ⟨h1, h2⟩ := h
  constructor
  · rw [show ([("b", goodRec), ("g", ghostRec)].map
        fun p => (p.1, some p.2)) = [("b", some goodRec), ("g", some ghostRec)]
      from rfl] at h1
    rw [h1]
    rfl
  · rw [show (([("b", goodRec), ("g", ghostRec)].filter
        fun p => !isGhostRecord p.2).map fun p => (p.1, specOf p.2)) =
      [("b", specOf goodRec)] by decide] at h2
    rw [h2]
    decide

/-- Claim C6, counterexample: a loadable record with valid MACs, an
empty SSH username and a duplicated UID host mapping does not round
trip — the load defaults the username to "ubuntu" and deduplicates the
mapping list, so the persisted document differs from the original even
though no ghost elimination or reordering is involved. -/
theorem persist_load_counterexample :
    (load_db [("a", some
        { num_cores := 1
          mem_size := "1024"
          disk_space := "1024"
          ssh_username := ""
          state := 1
          deleted := false
          metadata := []
          mac_addr := "52:54:00:12:34:56"
          extra_interfaces := []
          mounts := [{ source_path := "/src"
                       target_path := "/tgt"
                       uid_mappings := [(1000, 1000), (1000, 0)]
                       gid_mappings := []
                       mount_type := 0 }] })]).map persist_instances =
      .ok [("a", some
        { num_cores := 1
          mem_size := "1024"
          disk_space := "1024"
          ssh_username := "ubuntu"
          state := 1
          deleted := false
          metadata := []
          mac_addr := "52:54:00:12:34:56"
          extra_interfaces := []
          mounts := [{ source_path := "/src"
                       target_path := "/tgt"
                       uid_mappings := [(1000, 0)]
                       gid_mappings := []
                       mount_type := 0 }] })] ∧
      ("ubuntu" : String) ≠ "" ∧
      ([(1000, 0)] : List IdMapping) ≠ [(1000, 1000), (1000, 0)] := by
  refine ⟨?_, by decide, by decide⟩
  rfl

/-! ## Claim C10 -/

theorem assocLookup_cons_ne (e : String × α) (l : List (String × α)) (k : String)
    (dfl : α) (h : e.1 ≠ k) : assocLookup (e :: l) k dfl = assocLookup l k dfl := by
  have hfind : List.find? (fun q : String × α => decide (q.1 = k)) (e :: l) =
      List.find? (fun q : String × α => decide (q.1 = k)) l :=
    List.find?_cons_of_neg l (by simp [h])
  simp [assocLookup, hfind]

theorem assocLookup_cons_self (e : String × α) (l : List (String × α)) (dfl : α) :
    assocLookup (e :: l) e.1 dfl = e.2 := by
  have hfind : List.find? (fun q : String × α => decide (q.1 = e.1)) (e :: l) =
      some e := List.find?_cons_of_pos l (by simp)
  simp [assocLookup, hfind]

theorem assocModify_cons_ne (e : String × α) (l : List (String × α)) (k : String)
    (f : α → α) (h : e.1 ≠ k) : assocModify (e :: l) k f = e :: assocModify l k f := by
  simp [assocModify, h]

theorem assocModify_cons_self (e : String × α) (l : List (String × α)) (f : α → α) :
    assocModify (e :: l) e.1 f = (e.1, f e.2) :: assocModify l e.1 f := by
  simp [assocModify]

theorem assocLookup_modify_self (l : List (String × α)) (k : String) (f : α → α)
    (dfl : α) (hf : f dfl = dfl) :
    assocLookup (assocModify l k f) k dfl = f (assocLookup l k dfl) := by
  induction l with
  | nil => simp [assocLookup, assocModify, hf]
  | cons e rest ih =>
    by_cases hk : e.1 = k
    · subst hk
      rw [assocModify_cons_self e rest f]
      rw [show ((e.1, f e.2) : String × α) :: assocModify rest e.1 f =
        (⟨e.1, f e.2⟩ : String × α) :: assocModify rest e.1 f from rfl]
      rw [assocLookup_cons_self ⟨e.1, f e.2⟩ (assocModify rest e.1 f) dfl]
      rw [assocLookup_cons_self e rest dfl]
    · rw [assocModify_cons_ne e rest k f hk, assocLookup_cons_ne e _ k dfl hk,
        assocLookup_cons_ne e rest k dfl hk, ih]

theorem assocLookup_modify_ne (l : List (String × α)) (k k' : String) (f : α → α)
    (dfl : α) (h : k' ≠ k) :
    assocLookup (assocModify l k f) k' dfl = assocLookup l k' dfl := by
  induction l with
  | nil => simp [assocLookup, assocModify]
  | cons e rest ih =>
    by_cases hk : e.1 = k
    · subst hk
      rw [assocModify_cons_self e rest f]
      rw [show ((e.1, f e.2) : String × α) :: assocModify rest e.1 f =
        (⟨e.1, f e.2⟩ : String × α) :: assocModify rest e.1 f from rfl]
      rw [assocLookup_cons_ne ⟨e.1, f e.2⟩ _ k' dfl (Ne.symm h),
        assocLookup_cons_ne e rest k' dfl (Ne.symm h), ih]
    · by_cases hk' : e.1 = k'
      · subst hk'
        rw [assocModify_cons_ne e rest k f hk,
          assocLookup_cons_self e (assocModify rest k f) dfl,
          assocLookup_cons_self e rest dfl]
      · rw [assocModify_cons_ne e rest k f hk, assocLookup_cons_ne e _ k' dfl hk',
          assocLookup_cons_ne e rest k' dfl hk', ih]

/-- Unmounting all targets of `name` (the empty-target loop) empties the
instance's slice of both tables and deactivates every one of its
mounts. -/
theorem unmount_all_targets (dok : String → String → Bool) (name : String)
    (hdok : ∀ t, dok name t = true) :
    ∀ (ts : List String) (s : UmountState),
      assocLookup s.vm_mounts name [] = ts →
      (assocLookup s.spec_mounts name []).map Prod.fst = ts →
      ts.Nodup →
      assocLookup (ts.foldl (fun s t => do_unmount dok name t s) s).vm_mounts name [] = []
        ∧ assocLookup (ts.foldl (fun s t => do_unmount dok name t s) s).spec_mounts
            name [] = []
        ∧ (ts.foldl (fun s t => do_unmount dok name t s) s).deactivated =
            s.deactivated ++ ts.map (fun t => (name, t))
        ∧ (ts.foldl (fun s t => do_unmount dok name t s) s).errors = s.errors := by
  intro ts
  induction ts with
  | nil =>
    intro s hvm hspec _
    refine ⟨hvm, ?_, by simp, rfl⟩
    rwa [List.map_eq_nil_iff] at hspec
  | cons t rest ih =>
    intro s hvm hspec hnodup
    obtain ⟨hnotin, hnodup'⟩ := List.nodup_cons.1 hnodup
    rw [List.foldl_cons]
    have hstep := hdok t
    have hfilter : ∀ l : List String, l = t :: rest →
        List.filter (fun x => decide (x ≠ t)) l = rest := by
      intro l hl
      subst hl
      rw [List.filter_cons_of_neg (by simp)]
      refine List.filter_eq_self.2 fun a ha => ?_
      have hne : a ≠ t := fun hc => hnotin (hc ▸ ha)
      simp [hne]
    have hvm1 : assocLookup (do_unmount dok name t s).vm_mounts name [] = rest := by
      rw [do_unmount, if_pos hstep]
      rw [show ({ s with
          deactivated := s.deactivated ++ [(name, t)]
          spec_mounts := assocModify s.spec_mounts name
            (List.filter fun q => decide (q.1 ≠ t))
          vm_mounts := assocModify s.vm_mounts name
            (List.filter fun x => decide (x ≠ t)) } : UmountState).vm_mounts =
        assocModify s.vm_mounts name (List.filter fun x => decide (x ≠ t)) from rfl]
      rw [assocLookup_modify_self _ _ _ _ rfl, hvm]
      exact hfilter _ rfl
    have hspec1 : (assocLookup (do_unmount dok name t s).spec_mounts name []).map
        Prod.fst = rest := by
      rw [do_unmount, if_pos hstep]
      rw [show ({ s with
          deactivated := s.deactivated ++ [(name, t)]
          spec_mounts := assocModify s.spec_mounts name
            (List.filter fun q => decide (q.1 ≠ t))
          vm_mounts := assocModify s.vm_mounts name
            (List.filter fun x => decide (x ≠ t)) } : UmountState).spec_mounts =
        assocModify s.spec_mounts name (List.filter fun q => decide (q.1 ≠ t)) from rfl]
      rw [assocLookup_modify_self _ _ _ _ rfl]
      rw [show (fun q : String × VMMount => decide (q.1 ≠ t)) =
          ((fun x : String => decide (x ≠ t)) ∘ Prod.fst) from rfl]
      rw [← List.filter_map, hspec]
      exact hfilter _ rfl
    have hde1 : (do_unmount dok name t s).deactivated = s.deactivated ++ [(name, t)] := by
      rw [do_unmount, if_pos hstep]
    have herr1 : (do_unmount dok name t s).errors = s.errors := by
      rw [do_unmount, if_pos hstep]
    obtain ⟨h1, h2, h3, h4⟩ := ih (do_unmount dok name t s) hvm1 hspec1 hnodup'
    refine ⟨h1, h2, ?_, by rw [h4, herr1]⟩
    rw [h3, hde1, List.map_cons, List.append_assoc]
    rfl

theorem do_unmount_lookup_ne (dok : String → String → Bool) (n' t name : String)
    (s : UmountState) (h : name ≠ n') :
    assocLookup (do_unmount dok n' t s).vm_mounts name [] =
        assocLookup s.vm_mounts name [] ∧
      assocLookup (do_unmount dok n' t s).spec_mounts name [] =
        assocLookup s.spec_mounts name [] := by
  by_cases hd : dok n' t = true
  · rw [do_unmount, if_pos hd]
    exact ⟨assocLookup_modify_ne s.vm_mounts n' name _ [] h,
      assocLookup_modify_ne s.spec_mounts n' name _ [] h⟩
  · rw [do_unmount, if_neg hd]
    exact ⟨rfl, rfl⟩

theorem do_unmount_lookup_self (dok : String → String → Bool) (name t : String)
    (s : UmountState) (h : dok name t = true) :
    assocLookup (do_unmount dok name t s).vm_mounts name [] =
        (assocLookup s.vm_mounts name []).filter (fun x => decide (x ≠ t)) ∧
      assocLookup (do_unmount dok name t s).spec_mounts name [] =
        (assocLookup s.spec_mounts name []).filter (fun q => decide (q.1 ≠ t)) := by
  rw [do_unmount, if_pos h]
  exact ⟨assocLookup_modify_self s.vm_mounts name _ [] rfl,
    assocLookup_modify_self s.spec_mounts name _ [] rfl⟩

theorem do_unmount_deactivated (dok : String → String → Bool) (n' t : String)
    (s : UmountState) :
    (do_unmount dok n' t s).deactivated = s.deactivated ++ [(n', t)] := by
  by_cases hd : dok n' t = true
  · rw [do_unmount, if_pos hd]
  · rw [do_unmount, if_neg hd]

theorem foldl_do_unmount_ne (dok : String → String → Bool) (n' name : String)
    (h : name ≠ n') :
    ∀ (ts : List String) (s : UmountState),
      assocLookup (ts.foldl (fun s t => do_unmount dok n' t s) s).vm_mounts name [] =
          assocLookup s.vm_mounts name [] ∧
        assocLookup (ts.foldl (fun s t => do_unmount dok n' t s) s).spec_mounts name [] =
          assocLookup s.spec_mounts name [] := by
  intro ts
  induction ts with
  | nil => intro s; exact ⟨rfl, rfl⟩
  | cons t rest ih =>
    intro s
    rw [List.foldl_cons]
    obtain ⟨h1, h2⟩ := do_unmount_lookup_ne dok n' t name s h
    obtain ⟨h3, h4⟩ := ih (do_unmount dok n' t s)
    exact ⟨by rw [h3, h1], by rw [h4, h2]⟩

theorem foldl_do_unmount_deactivated (dok : String → String → Bool) (n' : String) :
    ∀ (ts : List String) (s : UmountState),
      (ts.foldl (fun s t => do_unmount dok n' t s) s).deactivated =
        s.deactivated ++ ts.map (fun t => (n', t)) := by
  intro ts
  induction ts with
  | nil => intro s; simp
  | cons t rest ih =>
    intro s
    rw [List.foldl_cons, ih (do_unmount dok n' t s), do_unmount_deactivated,
      List.map_cons, List.append_assoc]
    rfl

/-- Processing any further umount entry keeps the emptied slices of
`name` empty and only appends to the deactivation record. -/
theorem umount_entry_empty_preserved (cleanPath : String → String)
    (dok : String → String → Bool) (operative : List String) (name : String)
    (e : String × String) (s : UmountState)
    (hvm : assocLookup s.vm_mounts name [] = [])
    (hspec : assocLookup s.spec_mounts name [] = []) :
    assocLookup (umount_entry cleanPath dok operative s e).vm_mounts name [] = [] ∧
      assocLookup (umount_entry cleanPath dok operative s e).spec_mounts name [] = [] ∧
      ∃ suf, (umount_entry cleanPath dok operative s e).deactivated =
        s.deactivated ++ suf := by
  by_cases hop' : operative.contains e.1
  · by_cases htp : cleanPath e.2 = ""
    · rw [umount_entry]
      rw [if_neg (by rw [hop']; simp), if_pos htp]
      by_cases hn : e.1 = name
      · subst hn
        rw [hvm]
        exact ⟨hvm, hspec, [], by simp⟩
      · have hne : name ≠ e.1 := fun hc => hn hc.symm
        obtain ⟨h1, h2⟩ := foldl_do_unmount_ne dok e.1 name hne
          (assocLookup s.vm_mounts e.1 []) s
        exact ⟨by rw [h1, hvm], by rw [h2, hspec],
          _, foldl_do_unmount_deactivated dok e.1 (assocLookup s.vm_mounts e.1 []) s⟩
    · by_cases hmem : (assocLookup s.vm_mounts e.1 []).contains (cleanPath e.2)
      · rw [umount_entry, if_neg (by rw [hop']; simp), if_neg htp, if_pos hmem]
        by_cases hn : e.1 = name
        · subst hn
          rw [hvm] at hmem
          cases hmem
        · have hne : name ≠ e.1 := fun hc => hn hc.symm
          obtain ⟨h1, h2⟩ := do_unmount_lookup_ne dok e.1 (cleanPath e.2) name s hne
          exact ⟨by rw [h1, hvm], by rw [h2, hspec],
            [(e.1, cleanPath e.2)], do_unmount_deactivated dok e.1 (cleanPath e.2) s⟩
      · rw [umount_entry, if_neg (by rw [hop']; simp), if_neg htp, if_neg hmem]
        exact ⟨hvm, hspec, [], by simp⟩
  · have hfalse : operative.contains e.1 = false := (Bool.not_eq_true _) ▸ hop'
    rw [umount_entry, if_pos (by rw [hfalse]; decide)]
    exact ⟨hvm, hspec, [], by simp⟩

/-- The remaining request entries keep the emptied slices empty and the
deactivation record grows monotonically. -/
theorem umount_post_preserved (cleanPath : String → String)
    (dok : String → String → Bool) (operative : List String) (name : String) :
    ∀ (entries : List (String × String)) (s : UmountState),
      assocLookup s.vm_mounts name [] = [] →
      assocLookup s.spec_mounts name [] = [] →
      assocLookup (umount cleanPath dok operative entries s).vm_mounts name [] = [] ∧
        assocLookup (umount cleanPath dok operative entries s).spec_mounts name [] = [] ∧
        ∃ suf, (umount cleanPath dok operative entries s).deactivated =
          s.deactivated ++ suf := by
  intro entries
  induction entries with
  | nil => intro s hvm hspec; exact ⟨hvm, hspec, [], by simp [umount]⟩
  | cons e rest ih =>
    intro s hvm hspec
    obtain ⟨h1, h2, suf1, h3⟩ :=
      umount_entry_empty_preserved cleanPath dok operative name e s hvm hspec
    obtain ⟨h4, h5, suf2, h6⟩ := ih (umount_entry cleanPath dok operative s e) h1 h2
    refine ⟨by simpa [umount] using h4, by simpa [umount] using h5, suf1 ++ suf2, ?_⟩
    have : umount cleanPath dok operative (e :: rest) s =
        umount cleanPath dok operative rest (umount_entry cleanPath dok operative s e) := by
      rw [umount, umount, List.foldl_cons]
    rw [this, h6, h3, List.append_assoc]

/-- Claim C10: an umount request entry with an empty target path whose
instance name is in the operative table deactivates every mount of that
instance and removes them all from both the mount-handler table and the
spec's mounts map (empty target path means "unmount all"); later request
entries cannot resurrect them.  Hypotheses: `QDir::cleanPath` keeps the
empty path empty, every deactivation of this instance's handlers
succeeds, and the two tables agree on the instance's targets (the
mount-consistency invariant), without duplicates. -/
theorem umount_empty_target_unmounts_all (cleanPath : String → String)
    (dok : String → String → Bool) (operative : List String) (name : String)
    (post : List (String × String)) (s : UmountState)
    (hclean : cleanPath "" = "")
    (hop : operative.contains name = true)
    (hdok : ∀ t, dok name t = true)
    (hag : (assocLookup s.spec_mounts name []).map Prod.fst =
      assocLookup s.vm_mounts name [])
    (hnd : (assocLookup s.vm_mounts name []).Nodup) :
    assocLookup (umount cleanPath dok operative ((name, "") :: post) s).vm_mounts
        name [] = [] ∧
      assocLookup (umount cleanPath dok operative ((name, "") :: post) s).spec_mounts
        name [] = [] ∧
      ∀ t ∈ assocLookup s.vm_mounts name [],
        (name, t) ∈ (umount cleanPath dok operative ((name, "") :: post) s).deactivated := by
  have hentry : umount_entry cleanPath dok operative s (name, "") =
      (assocLookup s.vm_mounts name []).foldl (fun s t => do_unmount dok name t s) s := by
    rw [umount_entry]
    rw [if_neg (by rw [hop]; simp), if_pos (by simpa using hclean)]
  obtain ⟨h1, h2, h3, _⟩ := unmount_all_targets dok name hdok
    (assocLookup s.vm_mounts name []) s rfl hag hnd
  have hsplit : umount cleanPath dok operative ((name, "") :: post) s =
      umount cleanPath dok operative post (umount_entry cleanPath dok operative s (name, "")) := by
    rw [umount, umount, List.foldl_cons]
  rw [hsplit, hentry]
  obtain ⟨h4, h5, suf, h6⟩ := umount_post_preserved cleanPath dok operative name post
    ((assocLookup s.vm_mounts name []).foldl (fun s t => do_unmount dok name t s) s) h1 h2
  refine ⟨h4, h5, fun t ht => ?_⟩
  rw [h6, h3]
  refine List.mem_append_left _ (List.mem_append_right _ ?_)
  exact List.mem_map_of_mem _ ht

/-- Witness for `umount_empty_target_unmounts_all` at a concrete state
with two mounts on the instance. -/
theorem umount_empty_target_unmounts_all_witness :
    assocLookup (umount id (fun _ _ => true) ["vm1"] [("vm1", "")]
        ⟨[("vm1", [("/t1", ⟨"/s1", [], [], 0⟩), ("/t2", ⟨"/s2", [], [], 0⟩)])],
          [("vm1", ["/t1", "/t2"])], [], []⟩).vm_mounts "vm1" [] = [] ∧
      assocLookup (umount id (fun _ _ => true) ["vm1"] [("vm1", "")]
        ⟨[("vm1", [("/t1", ⟨"/s1", [], [], 0⟩), ("/t2", ⟨"/s2", [], [], 0⟩)])],
          [("vm1", ["/t1", "/t2"])], [], []⟩).spec_mounts "vm1" [] = [] ∧
      ∀ t ∈ assocLookup
          (⟨[("vm1", [("/t1", ⟨"/s1", [], [], 0⟩), ("/t2", ⟨"/s2", [], [], 0⟩)])],
            [("vm1", ["/t1", "/t2"])], [], []⟩ : UmountState).vm_mounts "vm1" [],
        ("vm1", t) ∈ (umount id (fun _ _ => true) ["vm1"] [("vm1", "")]
          ⟨[("vm1", [("/t1", ⟨"/s1", [], [], 0⟩), ("/t2", ⟨"/s2", [], [], 0⟩)])],
            [("vm1", ["/t1", "/t2"])], [], []⟩).deactivated :=
  umount_empty_target_unmounts_all id (fun _ _ => true) ["vm1"] "vm1" []
    ⟨[("vm1", [("/t1", ⟨"/s1", [], [], 0⟩), ("/t2", ⟨"/s2", [], [], 0⟩)])],
      [("vm1", ["/t1", "/t2"])], [], []⟩
    rfl (by decide) (fun _ => rfl) (by decide) (by decide)

end Multipass
